import Mathlib

/-!
Coroutine scheduler: timers, resume and the event loop.

A shallow embedding of `src/co/scheduler.cc`.

* Pointers to coroutine records (`Coroutine*`) and to wait coordinators
  (`waitx_t*`) are natural numbers naming a record of a store; a nullable
  pointer is an `Option`.
* The timer container `std::multimap<int64, Coroutine*>` is the list of its
  nodes in iteration order.  A node carries a name `nid`; a stored iterator
  (`co->it`, `TimerManager::_it`) is `some nid`, or `none` for `end()`.
* 64-bit times are integers; the conversion of a result to `uint32` is an
  explicit remainder modulo `2^32`.
-/

namespace co

/-! ## Data model -/

/-- Modelled from the spec: the state enumeration of scheduler.h (coroutine
states Init, Wait, Ready, Done; wait-coordinator states Init, Ready, Timeout).
The source names `st_init`, `st_wait`, `st_ready` and `st_timeout`. -/
inductive co_state_t where
  | st_init
  | st_wait
  | st_ready
  | st_timeout
  | st_done
deriving DecidableEq, Repr

open co_state_t

/-- A stored timer iterator: `none` is `_timer.end()`, `some nid` points to the
node named `nid`. -/
abbrev timer_id_t := Option Nat

/-- Modelled from the spec: the external wait coordinator `co::waitx_t`; only
its atomic `state` is touched by the scheduler. -/
structure waitx_t where
  state : co_state_t
deriving DecidableEq, Repr

/-- Modelled from the spec: the coroutine record of scheduler.h, with the
members that scheduler.cc reads or writes.  `ctx = 0` is the null context,
`stack` is the saved copy of the coroutine's part of its shared stack, `it` the
timer handle, `waitx` the optional wait coordinator. -/
structure Coroutine where
  id : Nat
  sid : Nat
  ctx : Nat
  stack : List Nat
  it : timer_id_t
  state : co_state_t
  waitx : Option Nat
deriving DecidableEq, Repr

/-- One node of the timer multimap: `first` is the deadline in milliseconds,
`second` the coroutine pointer, `nid` the name iterators use for the node. -/
structure TimerNode where
  nid : Nat
  first : Int
  second : Nat
deriving DecidableEq, Repr

/-- The members of `TimerManager`: the multimap in iteration order and the
insertion hint `_it`. -/
structure TimerManager where
  _timer : List TimerNode
  _it : timer_id_t
deriving DecidableEq, Repr

/-- The records reachable through pointers: coroutines and wait coordinators. -/
structure Heap where
  co : Nat → Coroutine
  waitx : Nat → waitx_t

/-- Store `c` at coroutine pointer `p`. -/
def Heap.setCo (h : Heap) (p : Nat) (c : Coroutine) : Heap :=
  { h with co := fun q => if q = p then c else h.co q }

/-- Store `x` at wait-coordinator pointer `p`. -/
def Heap.setWaitx (h : Heap) (p : Nat) (x : waitx_t) : Heap :=
  { h with waitx := fun q => if q = p then x else h.waitx q }

/-! ## Atomic operations -/

/-- Modelled from the spec: `atomic_swap(p, v)` of co/atomic.h, an atomic
exchange.  Given the value at `p` and `v`, the result is the value left at `p`
and the value returned (the previous one).  `SchedulerImpl::stop` relies on
this: `atomic_swap(&_stop, true)` sets the flag and answers whether it was set
before. -/
def atomic_swap {α : Type} (cur v : α) : α × α := (v, cur)

/-- Modelled from the spec: `atomic_compare_swap(p, o, v)` of co/atomic.h.
Given the value at `p`, the value left at `p` is `v` when the current value is
`o` and the current value otherwise; the previous value is returned. -/
def atomic_compare_swap {α : Type} [DecidableEq α] (cur o v : α) : α × α :=
  (if cur = o then v else cur, cur)

/-! ## TimerManager::check_timeout -/

/-- The value `(uint32)-1`. -/
def UINT32_MAX : Nat := 4294967295

/-- The iterator that points to the first node of `l` (`end()` when `l` is
empty). -/
def iter_of (l : List TimerNode) : timer_id_t := l.head?.map TimerNode.nid

/-- The body of the `for` loop of `check_timeout` for one expired node. -/
def expire_node (h : Heap) (res : List Nat) (n : TimerNode) : Heap × List Nat :=
  let p := n.second
  -- if (co->it != _timer.end()) co->it = _timer.end();
  let h1 := if (h.co p).it ≠ none then h.setCo p { h.co p with it := none } else h
  match (h1.co p).waitx with
  | none =>
    if (h1.co p).state = st_init then (h1, res ++ [p])
    else
      let r := atomic_swap (h1.co p).state st_init
      let h2 := h1.setCo p { h1.co p with state := r.1 }
      if r.2 = st_wait then (h2, res ++ [p]) else (h2, res)
  | some w =>
    let r := atomic_compare_swap (h1.waitx w).state st_init st_timeout
    let h2 := h1.setWaitx w { h1.waitx w with state := r.1 }
    if r.2 = st_init then (h2, res ++ [p]) else (h2, res)

/-- The `for` loop of `check_timeout`.  The iterator `it` is the list of nodes
from `it` to the end; the result holds the iterator at which the loop stops. -/
def expire_loop (now_ms : Int) : List TimerNode → Heap → List Nat →
    Heap × List Nat × List TimerNode
  | [], h, res => (h, res, [])
  | n :: ns, h, res =>
    if n.first > now_ms then (h, res, n :: ns)
    else
      let r := expire_node h res n
      expire_loop now_ms ns r.1 r.2

/-- The value of `_it->first <= now_ms` guarded by `_it != _timer.end()`.  An
iterator that names no node of the map is not dereferenced. -/
def hint_expired (tm : TimerManager) (now_ms : Int) : Bool :=
  match tm._it with
  | none => false
  | some i =>
    match tm._timer.find? (fun n => n.nid = i) with
    | some n => decide (n.first ≤ now_ms)
    | none => false

/-- The result of `check_timeout`. -/
structure CheckResult where
  ret : Nat
  tm : TimerManager
  heap : Heap
  res : List Nat

/-- The block `if (it != _timer.begin()) { ... }` of `check_timeout`: move the
hint off the expired range and erase `[begin, it)`.  The iterator `it` is the
list of the nodes from `it` on. -/
def erase_expired (tm : TimerManager) (now_ms : Int) (it : List TimerNode) : TimerManager :=
  if it ≠ tm._timer then
    { _it := if hint_expired tm now_ms then iter_of it else tm._it,
      _timer := it }
  else tm

/-- The last two statements of `check_timeout`: `(uint32)-1` for an empty map,
else `(int)(_timer.begin()->first - now_ms)` converted to `uint32`. -/
def next_wait (tm : TimerManager) (now_ms : Int) : Nat :=
  match tm._timer with
  | [] => UINT32_MAX
  | n :: _ => ((n.first - now_ms) % 4294967296).toNat

/-- The function `TimerManager::check_timeout(res)`, with the clock reading
`now::ms()` as the argument `now_ms`. -/
def check_timeout (tm : TimerManager) (h : Heap) (now_ms : Int) (res : List Nat) :
    CheckResult :=
  if tm._timer.isEmpty then ⟨UINT32_MAX, tm, h, res⟩
  else
    let r := expire_loop now_ms tm._timer h res
    let tm1 := erase_expired tm now_ms r.2.2
    ⟨next_wait tm1 now_ms, tm1, r.1, r.2.1⟩

/-! ## Scheduler state -/

/-- One slot of the shared-stack array (`Stack` of scheduler.h): the buffer `p`
(0 while not allocated), its end `top`, and the incumbent coroutine `co`. -/
structure Stack where
  p : Nat
  top : Nat
  co : Option Nat
deriving DecidableEq, Repr

/-- The result of a context jump: the context that jumped here and its payload
(a null payload is `none`). -/
structure tb_context_from_t where
  ctx : Nat
  priv : Option Nat
deriving DecidableEq, Repr

/-- Modelled from the spec: the task inbox (`TaskManager` of scheduler.h), the
list of new closures and the list of ready coroutines. -/
structure TaskManager where
  _new_tasks : List Nat
  _ready_tasks : List Nat
deriving DecidableEq, Repr

/-- Modelled from the spec: the poller (`Epoll`), reduced to its wake-pipe: the
number of bytes written by `signal()` and not yet read. -/
structure Epoll where
  pipe : Nat
deriving DecidableEq, Repr

/-- Modelled from the spec: the per-descriptor slot returned by
`co::get_sock_ctx`: for a scheduler id, the id of the coroutine waiting to read
and of the one waiting to write (0 when there is none). -/
structure SockCtx where
  get_ev_read : Nat → Nat
  get_ev_write : Nat → Nat

/-- One entry of the event array filled by `epoll_wait`. -/
structure epoll_event where
  events : Nat
  data : Nat
deriving DecidableEq, Repr

/-- The bit `EPOLLIN` of `<sys/epoll.h>`. -/
def EPOLLIN : Nat := 1

/-- The bit `EPOLLOUT` of `<sys/epoll.h>`. -/
def EPOLLOUT : Nat := 4

/-- The members of `SchedulerImpl` that scheduler.cc uses, together with the
memory they point into: the coroutine and wait-coordinator records (`heap`),
the bytes of the shared stacks (`mem`) and the table of socket contexts
(`sock`).  `_co_pool` gives the record of a coroutine id; `_ev` is the
termination event signalled when the loop ends. -/
structure SchedulerImpl where
  _wait_ms : Nat
  _id : Nat
  _sched_num : Nat
  _stack_size : Nat
  _running : Option Nat
  _main_co : Nat
  _stack : Nat → Stack
  _co_pool : Nat → Nat
  _timer_mgr : TimerManager
  _task_mgr : TaskManager
  _epoll : Epoll
  _stop : Bool
  _timeout : Bool
  _ev : Bool
  heap : Heap
  mem : Nat → Nat
  sock : Nat → SockCtx

/-- The code this file does not look into: the allocator, the context-switch
primitive, the coroutine pool and the accessors of the poller.
`tb_context_jump s ctx priv` runs the coroutine whose context is `ctx` until it
yields or ends; it gives the state it leaves behind and the `from` record the
jump returns with. -/
structure Env where
  malloc : SchedulerImpl → Nat → Nat
  tb_context_make : (Nat → Nat) → Nat → Nat → Nat × (Nat → Nat)
  tb_context_jump : SchedulerImpl → Nat → Nat → SchedulerImpl × tb_context_from_t
  recycle : SchedulerImpl → SchedulerImpl
  new_coroutine : SchedulerImpl → Nat → Nat × SchedulerImpl
  is_ev_pipe : epoll_event → Bool
  user_data : epoll_event → Nat

/-- Replace slot `sid` of the stack array. -/
def SchedulerImpl.setStack (s : SchedulerImpl) (sid : Nat) (k : Stack) : SchedulerImpl :=
  { s with _stack := fun i => if i = sid then k else s._stack i }

/-- Replace the coroutine record at pointer `p`. -/
def SchedulerImpl.setCo (s : SchedulerImpl) (p : Nat) (c : Coroutine) : SchedulerImpl :=
  { s with heap := s.heap.setCo p c }

/-! ## Helpers of scheduler.h -/

/-- Modelled from the spec: `TimerManager::del_timer(it)`, the cancellation of
a timer by its handle: the node the handle points to leaves the map.  The spec
says nothing of the insertion hint, which stays as it is. -/
def TimerManager.del_timer (tm : TimerManager) (it : Nat) : TimerManager :=
  { tm with _timer := tm._timer.eraseP (fun n => decide (n.nid = it)) }

/-- The bytes of `mem` in the address range `[lo, hi)`. -/
def read_bytes (mem : Nat → Nat) (lo hi : Nat) : List Nat :=
  (List.range (hi - lo)).map (fun i => mem (lo + i))

/-- The bytes of `mem` after `memcpy(dst, data, data.size())`. -/
def memcpy (mem : Nat → Nat) (dst : Nat) (data : List Nat) : Nat → Nat :=
  fun a => if dst ≤ a ∧ a < dst + data.length then data.getD (a - dst) 0 else mem a

/-- Modelled from the spec: `SchedulerImpl::save_stack(co)`: the live span
`[co->ctx, top)` of the coroutine's slot is copied into `co->stack`; nothing is
done for a null pointer. -/
def save_stack (s : SchedulerImpl) : Option Nat → SchedulerImpl
  | none => s
  | some p =>
    let c := s.heap.co p
    s.setCo p { c with stack := read_bytes s.mem c.ctx (s._stack c.sid).top }

/-- Modelled from the spec: `TaskManager::get_all_tasks`, the drain of the
inbox into the two local vectors of the loop (empty at that point): the result
is the emptied inbox, the new closures and the ready coroutines. -/
def TaskManager.get_all_tasks (t : TaskManager) : TaskManager × List Nat × List Nat :=
  (⟨[], []⟩, t._new_tasks, t._ready_tasks)

/-- Modelled from the spec: `Epoll::handle_ev_pipe`, which reads the wake-pipe
empty. -/
def Epoll.handle_ev_pipe (e : Epoll) : Epoll := { e with pipe := 0 }

/-- Modelled from the spec: the accessor `SchedulerImpl::timeout()`. -/
def SchedulerImpl.timeout (s : SchedulerImpl) : Bool := s._timeout

/-- The function `co::timeout()`: `gSched && gSched->timeout()`, where `gSched`
is the scheduler of the calling thread, if any. -/
def timeout (gSched : Option SchedulerImpl) : Bool :=
  match gSched with
  | none => false
  | some s => s.timeout

/-! ## SchedulerImpl::resume -/

/-- The part of `resume(co)` that runs before the jump into the coroutine.
The result is the state at the jump, or `none` when the `CHECK` on the saved
stack size fails (the process aborts). -/
def resume_enter (env : Env) (s : SchedulerImpl) (co : Nat) : Option SchedulerImpl :=
  let sid := (s.heap.co co).sid
  let s1 := { s with _running := some co }
  let s2 :=
    if (s1._stack sid).p = 0 then
      let p := env.malloc s1 s1._stack_size
      s1.setStack sid ⟨p, p + s1._stack_size, some co⟩
    else s1
  if (s2.heap.co co).ctx = 0 then
    -- resume new coroutine
    let s3 :=
      if (s2._stack sid).co ≠ some co then
        let s' := save_stack s2 (s2._stack sid).co
        s'.setStack sid { s'._stack sid with co := some co }
      else s2
    let m := env.tb_context_make s3.mem (s3._stack sid).p s3._stack_size
    some { s3.setCo co { s3.heap.co co with ctx := m.1 } with mem := m.2 }
  else
    -- remove timer before resume the coroutine
    let s3 :=
      match (s2.heap.co co).it with
      | some i =>
        let s' := { s2 with _timer_mgr := s2._timer_mgr.del_timer i }
        s'.setCo co { s'.heap.co co with it := none }
      | none => s2
    -- resume suspended coroutine
    if (s3._stack sid).co ≠ some co then
      let s4 := save_stack s3 (s3._stack sid).co
      let c := s4.heap.co co
      if (s4._stack sid).top = c.ctx + c.stack.length then
        let s5 := { s4 with mem := memcpy s4.mem c.ctx c.stack }
        some (s5.setStack sid { s5._stack sid with co := some co })
      else none
    else some s3

/-- The part of `resume` that runs after the jump has come back with `from`:
a yield updates the context of the running coroutine (the `assert` aborts when
the payload is not the running coroutine), an end recycles it. -/
def resume_leave (env : Env) (s : SchedulerImpl) (frm : tb_context_from_t) :
    Option SchedulerImpl :=
  match frm.priv with
  | some q =>
    if s._running = some q then some (s.setCo q { s.heap.co q with ctx := frm.ctx })
    else none
  | none => some (env.recycle s)

/-- The place in `loop` a call of `resume` is made from: the reader or the
writer of the `i`-th event, the `i`-th new task, the `i`-th ready task, the
`i`-th timed-out coroutine. -/
inductive Site where
  | ev_read (i : Nat)
  | ev_write (i : Nat)
  | new_task (i : Nat)
  | ready_task (i : Nat)
  | timed_out (i : Nat)
deriving DecidableEq, Repr

/-- The record of one call of `resume`: where it is made from, the coroutine,
and the value `co::timeout()` has on the scheduler thread at the jump into the
coroutine. -/
structure ResumeCall where
  site : Site
  co : Nat
  timeout : Bool
deriving DecidableEq, Repr

/-- The function `SchedulerImpl::resume(co)` called from `site`; the call is
appended to the record `tr` when it returns.  `none` is a fatal abort. -/
def resume_at (env : Env) (site : Site) (st : SchedulerImpl × List ResumeCall) (co : Nat) :
    Option (SchedulerImpl × List ResumeCall) :=
  match resume_enter env st.1 co with
  | none => none
  | some s1 =>
    let j := env.tb_context_jump s1 (s1.heap.co co).ctx s1._main_co
    match resume_leave env j.1 j.2 with
    | none => none
    | some s3 => some (s3, st.2 ++ [⟨site, co, timeout (some s1)⟩])

/-- The function `SchedulerImpl::resume(co)`. -/
def resume (env : Env) (s : SchedulerImpl) (co : Nat) : Option SchedulerImpl :=
  (resume_at env (Site.ready_task 0) (s, []) co).map Prod.fst

/-! ## SchedulerImpl::loop -/

/-- What `_epoll->wait(_wait_ms)` gives: the count `n`, the event array, and
whether `_stop` has been set by another thread when `wait` returns. -/
structure WaitResult where
  n : Int
  ev : Nat → epoll_event
  stop : Bool

/-- The body of the event loop `for (int i = 0; i < n; ++i)` for index `i`
(the `__linux__` branch). -/
def handle_event (env : Env) (ev : epoll_event) (i : Nat)
    (st : SchedulerImpl × List ResumeCall) : Option (SchedulerImpl × List ResumeCall) :=
  if env.is_ev_pipe ev then
    some ({ st.1 with _epoll := st.1._epoll.handle_ev_pipe }, st.2)
  else
    let ctx := st.1.sock (env.user_data ev)
    let rco :=
      if ev.events &&& EPOLLIN ≠ 0 ∨ ¬ (ev.events &&& EPOLLOUT ≠ 0) then
        ctx.get_ev_read st.1._id
      else 0
    let wco :=
      if ev.events &&& EPOLLOUT ≠ 0 ∨ ¬ (ev.events &&& EPOLLIN ≠ 0) then
        ctx.get_ev_write st.1._id
      else 0
    match (if rco ≠ 0 then resume_at env (Site.ev_read i) st (st.1._co_pool rco) else some st) with
    | none => none
    | some st1 =>
      if wco ≠ 0 then resume_at env (Site.ev_write i) st1 (st1.1._co_pool wco) else some st1

/-- The event loop over the indices `is` (in `loop`: `0, 1, ..., n-1`). -/
def handle_events (env : Env) (ev : Nat → epoll_event) :
    List Nat → SchedulerImpl × List ResumeCall → Option (SchedulerImpl × List ResumeCall)
  | [], st => some st
  | i :: is, st =>
    match handle_event env (ev i) i st with
    | none => none
    | some st1 => handle_events env ev is st1

/-- The loop `for (i...) this->resume(this->new_coroutine(new_tasks[i]))`,
from index `i` on. -/
def resume_new_tasks (env : Env) :
    List Nat → Nat → SchedulerImpl × List ResumeCall → Option (SchedulerImpl × List ResumeCall)
  | [], _, st => some st
  | cb :: cbs, i, st =>
    let c := env.new_coroutine st.1 cb
    match resume_at env (Site.new_task i) (c.2, st.2) c.1 with
    | none => none
    | some st1 => resume_new_tasks env cbs (i + 1) st1

/-- The loop `for (i...) this->resume(ready_tasks[i])`, from index `i` on;
`site` tells the loop over the ready tasks from the loop over the timed-out
coroutines. -/
def resume_tasks (env : Env) (site : Nat → Site) :
    List Nat → Nat → SchedulerImpl × List ResumeCall → Option (SchedulerImpl × List ResumeCall)
  | [], _, st => some st
  | c :: cs, i, st =>
    match resume_at env (site i) st c with
    | none => none
    | some st1 => resume_tasks env site cs (i + 1) st1

/-- The block "check tasks ready to resume" of `loop`. -/
def run_tasks (env : Env) (st : SchedulerImpl × List ResumeCall) :
    Option (SchedulerImpl × List ResumeCall) :=
  let g := st.1._task_mgr.get_all_tasks
  let st0 : SchedulerImpl × List ResumeCall := ({ st.1 with _task_mgr := g.1 }, st.2)
  match resume_new_tasks env g.2.1 0 st0 with
  | none => none
  | some st1 => resume_tasks env Site.ready_task g.2.2 0 st1

/-- The block "check timedout tasks" of `loop`, with the clock reading
`now_ms`. -/
def run_timers (env : Env) (now_ms : Int) (st : SchedulerImpl × List ResumeCall) :
    Option (SchedulerImpl × List ResumeCall) :=
  let r := check_timeout st.1._timer_mgr st.1.heap now_ms []
  let s1 := { st.1 with _wait_ms := r.ret, _timer_mgr := r.tm, heap := r.heap }
  if r.res ≠ [] then
    match resume_tasks env Site.timed_out r.res 0 ({ s1 with _timeout := true }, st.2) with
    | none => none
    | some st2 => some ({ st2.1 with _timeout := false }, st2.2)
  else some (s1, st.2)

/-- The outcome of one pass through the body of `while (!_stop)`: whether the
loop goes on (`false` after `break`), the state, and the calls of `resume` made
in the pass. -/
structure PassResult where
  go_on : Bool
  s : SchedulerImpl
  calls : List ResumeCall

/-- One pass through the body of `while (!_stop)`, entered with `_stop` not
set: `wr` is what `wait` gives, `now_ms` the clock reading of `check_timeout`.
`none` is a fatal abort inside a `resume`. -/
def loop_body (env : Env) (wr : WaitResult) (now_ms : Int) (s : SchedulerImpl) :
    Option PassResult :=
  let s0 := { s with _stop := s._stop || wr.stop }
  if s0._stop then some ⟨false, s0, []⟩
  else if wr.n = -1 then some ⟨true, s0, []⟩
  else
    match handle_events env wr.ev (List.range wr.n.toNat) (s0, []) with
    | none => none
    | some st1 =>
      match run_tasks env st1 with
      | none => none
      | some st2 =>
        match run_timers env now_ms st2 with
        | none => none
        | some st3 => some ⟨true, { st3.1 with _running := none }, st3.2⟩

/-- The store and the result vector at the moment the loop of `check_timeout`,
started on `h` and `res`, has handled the nodes `pre` (all expired) and reaches
the node that follows them. -/
def reach (now_ms : Int) (pre : List TimerNode) (h : Heap) (res : List Nat) : Heap × List Nat :=
  ((expire_loop now_ms pre h res).1, (expire_loop now_ms pre h res).2.1)

/-- The store and the result vector right after the loop of `check_timeout`
has handled the expired node `n` that follows the nodes `pre`. -/
def step_at (now_ms : Int) (pre : List TimerNode) (n : TimerNode) (h : Heap) (res : List Nat) :
    Heap × List Nat :=
  expire_node (reach now_ms pre h res).1 (reach now_ms pre h res).2 n

/-! ## Sample data -/

/-- A sample store: coroutine `p` has id `p`, slot `p % 8`, handle `some p`, no
wait coordinator, except coroutines 3 and 4, which wait on coordinators 3 and 4;
the coroutines below 100 have run (context 5000), the others have not;
coroutines 1 to 5 hold a handle, the others none;
coroutine 1 is in `st_wait`, 2 in `st_ready`, the others in `st_init`;
coordinator 3 is in `st_init`, the others in `st_ready`. -/
def ex_heap : Heap where
  co := fun p =>
    { id := p, sid := p % 8, ctx := if p < 100 then 5000 else 0, stack := [],
      it := if 1 ≤ p ∧ p ≤ 5 then some p else none,
      state := if p = 1 then st_wait else if p = 2 then st_ready else st_init,
      waitx := if p = 3 ∨ p = 4 then some p else none }
  waitx := fun w => ⟨if w = 3 then st_init else st_ready⟩

/-- A sample timer map: node `k` holds coroutine `k`; deadlines 10, 10, 20, 20, 30. -/
def ex_timer : List TimerNode :=
  [⟨1, 10, 1⟩, ⟨2, 10, 2⟩, ⟨3, 20, 3⟩, ⟨4, 20, 4⟩, ⟨5, 30, 5⟩]

/-- A sample environment: buffers are allocated at address 4096, a new context
lies 64 bytes below the end of the buffer, a coroutine yields as soon as it is
entered, the closure `cb` becomes coroutine `96 + cb`, and the wake-pipe is the
descriptor 0. -/
def ex_env : Env where
  malloc := fun _ _ => 4096
  tb_context_make := fun mem p size => (p + size - 64, mem)
  tb_context_jump := fun s ctx _ => (s, ⟨ctx, s._running⟩)
  recycle := fun s => s
  new_coroutine := fun s cb => (96 + cb, s)
  is_ev_pipe := fun ev => decide (ev.data = 0)
  user_data := fun ev => ev.data

/-- A sample scheduler: no stack allocated yet, the sample timers and store,
one new closure 6 and one ready coroutine 5 in the inbox; on descriptor 9
coroutine 16 waits to read and coroutine 23 to write. -/
def ex_sched : SchedulerImpl where
  _wait_ms := UINT32_MAX
  _id := 0
  _sched_num := 1
  _stack_size := 1024
  _running := none
  _main_co := 0
  _stack := fun _ => ⟨0, 0, none⟩
  _co_pool := fun i => i
  _timer_mgr := ⟨ex_timer, none⟩
  _task_mgr := ⟨[6], [5]⟩
  _epoll := ⟨1⟩
  _stop := false
  _timeout := false
  _ev := false
  heap := ex_heap
  mem := fun _ => 0
  sock := fun fd => ⟨fun _ => if fd = 9 then 16 else 0, fun _ => if fd = 9 then 23 else 0⟩

/-- A sample result of `wait`: three events, the wake-pipe, then descriptor 9
readable and writable, then descriptor 9 readable. -/
def ex_wait : WaitResult where
  n := 3
  ev := fun i => if i = 0 then ⟨1, 0⟩ else if i = 1 then ⟨5, 9⟩ else ⟨1, 9⟩
  stop := false

/-- The pass the sample scheduler makes on the sample events at time 20. -/
def ex_pass : PassResult :=
  (loop_body ex_env ex_wait 20 ex_sched).getD ⟨false, ex_sched, []⟩

/-- The frame condition on the code outside this file: running a coroutine,
recycling one and creating one do not write the member `_timeout`, which is
private to the scheduler and written by `loop` alone. -/
def Env.keeps_timeout (env : Env) : Prop :=
  (∀ s ctx p, (env.tb_context_jump s ctx p).1._timeout = s._timeout) ∧
  (∀ s, (env.recycle s)._timeout = s._timeout) ∧
  (∀ s cb, (env.new_coroutine s cb).2._timeout = s._timeout)

/-- The call site and the coroutine of a recorded call. -/
def ResumeCall.key (c : ResumeCall) : Site × Nat := (c.site, c.co)

/-- The calls a loop over the vector `cs` is to make, counted from index `i`:
the `k`-th coroutine of `cs` at the site of index `i + k`. -/
def calls_from (site : Nat → Site) : List Nat → Nat → List (Site × Nat)
  | [], _ => []
  | c :: cs, i => (site i, c) :: calls_from site cs (i + 1)

/-- Whether a call site is the loop over the timed-out coroutines. -/
def Site.is_timed_out : Site → Bool
  | Site.timed_out _ => true
  | _ => false

/-! ## The loop as a whole -/

/-- The outcome of `loop` on the inputs at hand: whether it has returned (if
not, it is blocked in `wait`), the state, and the calls of `resume` made. -/
structure LoopResult where
  returned : Bool
  s : SchedulerImpl
  calls : List ResumeCall

/-- The function `SchedulerImpl::loop()` after `gSched = this`, run on the
successive results of `wait` and clock readings of `inputs`.  When the
condition of `while (!_stop)` fails or the body breaks, `_ev.signal()` sets the
termination event and the loop returns.  `none` is a fatal abort. -/
def loop (env : Env) :
    List (WaitResult × Int) → SchedulerImpl → List ResumeCall → Option LoopResult
  | [], s, tr =>
    if s._stop then some ⟨true, { s with _ev := true }, tr⟩ else some ⟨false, s, tr⟩
  | inp :: rest, s, tr =>
    if s._stop then some ⟨true, { s with _ev := true }, tr⟩
    else
      match loop_body env inp.1 inp.2 s with
      | none => none
      | some r =>
        if r.go_on then loop env rest r.s (tr ++ r.calls)
        else some ⟨true, { r.s with _ev := true }, tr ++ r.calls⟩

/-! ## SchedulerImpl: construction and stop -/

/-- What the machine gives to the process: the value of `os::cpunum()`, and
the memory and coroutine pool a new scheduler starts on. -/
structure Host where
  cpunum : Int
  heap : Heap
  mem : Nat → Nat
  sock : Nat → SockCtx
  co_pool : Nat → Nat

/-- The constructor `SchedulerImpl(id, sched_num, stack_size)`: the wait is
`(uint32)-1`, the flags are clear, the stack array is zeroed, the poller is
new, and `_main_co` is the coroutine of id 0 popped from the pool. -/
def SchedulerImpl.create (host : Host) (id sched_num stack_size : Nat) : SchedulerImpl where
  _wait_ms := UINT32_MAX
  _id := id
  _sched_num := sched_num
  _stack_size := stack_size
  _running := none
  _main_co := host.co_pool 0
  _stack := fun _ => ⟨0, 0, none⟩
  _co_pool := host.co_pool
  _timer_mgr := ⟨[], none⟩
  _task_mgr := ⟨[], []⟩
  _epoll := ⟨0⟩
  _stop := false
  _timeout := false
  _ev := false
  heap := host.heap
  mem := host.mem
  sock := host.sock

/-- Modelled from the spec: `Epoll::signal()`, which writes one byte to the
wake-pipe. -/
def Epoll.signal (e : Epoll) : Epoll := { e with pipe := e.pipe + 1 }

/-- What a call of `SchedulerImpl::stop` does besides writing `_stop`. -/
inductive StopAction where
  | signal_epoll
  | wait_ev
deriving DecidableEq, Repr

/-- The function `SchedulerImpl::stop()`.  The argument `ev_wait` gives the
state of the scheduler at the moment the blocking `_ev.wait()` returns, after
the loop thread has signalled its end.  The result is the state and the
actions taken. -/
def SchedulerImpl.stop (ev_wait : SchedulerImpl → SchedulerImpl) (s : SchedulerImpl) :
    SchedulerImpl × List StopAction :=
  let r := atomic_swap s._stop true
  let s1 := { s with _stop := r.1 }
  if r.2 = false then
    (ev_wait { s1 with _epoll := s1._epoll.signal },
      [StopAction.signal_epoll, StopAction.wait_ev])
  else (s1, [])

/-! ## SchedulerManager and the process-wide state -/

/-- The members of `SchedulerManager`: the schedulers, the round-robin counter
`_n`, the wrap remainder `_r` and the index mask `_s`. -/
structure SchedulerManager where
  _scheds : List SchedulerImpl
  _n : Nat
  _r : Nat
  _s : Nat

/-- The process-wide state of scheduler.cc: the flags, the static booleans
behind `initialized()`, `stopped()` and `need_exit_log()`, the static manager
behind `scheduler_manager()` (absent until its first call), and the number of
calls made to `log::exit()`. -/
structure Process where
  FLG_co_sched_num : Nat
  FLG_co_stack_size : Nat
  FLG_disable_co_exit : Bool
  kInitialized : Bool
  kStopped : Bool
  kExitLog : Bool
  kSchedMgr : Option SchedulerManager
  log_exit_calls : Nat

/-- The conversion `(uint32)x` of an `int`. -/
def to_uint32 (x : Int) : Nat := (x % 4294967296).toNat

/-- The conversion `(int)n` of a size. -/
def to_int (n : Nat) : Int := ((n : Int) + 2147483648) % 4294967296 - 2147483648

/-- The count of schedulers after the first statement of the constructor of
`SchedulerManager`: the flag, replaced by `os::cpunum()` when it is 0 or
greater than `(uint32)os::cpunum()`. -/
def clamp_sched_num (host : Host) (flag : Nat) : Nat :=
  if flag = 0 ∨ flag > to_uint32 host.cpunum then to_uint32 host.cpunum else flag

/-- The value `static_cast<uint32>((1ULL << 32) % FLG_co_sched_num)` stored in
`_r`. -/
def wrap_remainder (n : Nat) : Nat := (4294967296 % n) % 4294967296

/-- The value `_r == 0 ? (FLG_co_sched_num - 1) : -1` stored in `_s`, in
`uint32` arithmetic. -/
def index_mask (n : Nat) : Nat :=
  if wrap_remainder n = 0 then (n + 4294967295) % 4294967296 else 4294967295

/-- The constructor `SchedulerManager::SchedulerManager()`: the two flags are
put in range, `_n`, `_r`, `_s` are set, the schedulers `0, 1, ...` are created
(and started) in this order, and the process is marked initialized and not
stopped. -/
def SchedulerManager.create (host : Host) (P : Process) : SchedulerManager × Process :=
  let n := clamp_sched_num host P.FLG_co_sched_num
  let size := if P.FLG_co_stack_size = 0 then 1024 * 1024 else P.FLG_co_stack_size
  let m : SchedulerManager :=
    { _n := UINT32_MAX,
      _r := wrap_remainder n,
      _s := index_mask n,
      _scheds := (List.range n).map (fun i => SchedulerImpl.create host i n size) }
  (m, { P with FLG_co_sched_num := n, FLG_co_stack_size := size,
               kStopped := false, kInitialized := true })

/-- The function `scheduler_manager()`: the static manager, constructed at the
first call. -/
def scheduler_manager (host : Host) (P : Process) : SchedulerManager × Process :=
  match P.kSchedMgr with
  | some m => (m, P)
  | none =>
    let r := SchedulerManager.create host P
    (r.1, { r.2 with kSchedMgr := some r.1 })

/-- The function `co::init()`. -/
def init (host : Host) (P : Process) : Process := (scheduler_manager host P).2

/-- The function `co::all_schedulers()`, with the process state after the
call. -/
def all_schedulers (host : Host) (P : Process) : List SchedulerImpl × Process :=
  ((scheduler_manager host P).1._scheds, (scheduler_manager host P).2)

/-- The function `co::scheduler_num()`, with the process state after the
call. -/
def scheduler_num (host : Host) (P : Process) : Int × Process :=
  if P.kInitialized then
    (to_int (all_schedulers host P).1.length, (all_schedulers host P).2)
  else (host.cpunum, P)

/-- The loop of `SchedulerManager::stop()` over the schedulers: the schedulers
after it and the actions taken, each with the index of its scheduler. -/
def stop_all (ev_wait : SchedulerImpl → SchedulerImpl) :
    List SchedulerImpl → Nat → List SchedulerImpl × List (Nat × StopAction)
  | [], _ => ([], [])
  | s :: ss, i =>
    let r := s.stop ev_wait
    let rest := stop_all ev_wait ss (i + 1)
    (r.1 :: rest.1, r.2.map (fun a => (i, a)) ++ rest.2)

/-- The function `SchedulerManager::stop()` on the static manager of the
process: every scheduler is stopped, then `stopped()` is set. -/
def SchedulerManager.stop (ev_wait : SchedulerImpl → SchedulerImpl) (m : SchedulerManager)
    (P : Process) : Process × List (Nat × StopAction) :=
  let r := stop_all ev_wait m._scheds 0
  ({ P with kSchedMgr := some { m with _scheds := r.1 }, kStopped := true }, r.2)

/-- The function `co::exit()`: the process state after it and the actions
taken on the schedulers. -/
def exit (host : Host) (ev_wait : SchedulerImpl → SchedulerImpl) (P : Process) :
    Process × List (Nat × StopAction) :=
  if ¬ P.FLG_disable_co_exit then
    let g := scheduler_manager host P
    let r := g.1.stop ev_wait g.2
    (if r.1.kExitLog then { r.1 with log_exit_calls := r.1.log_exit_calls + 1 } else r.1, r.2)
  else (P, [])

/-- The frame condition on the loop thread: while `stop()` waits for it, it
does not write `_stop` (the flag is written by `stop()` alone). -/
def keeps_stop (ev_wait : SchedulerImpl → SchedulerImpl) : Prop :=
  ∀ s, (ev_wait s)._stop = s._stop

/-! ## The primitives for coroutine code -/

/-- The state of one thread: its `gSched` (null outside a scheduler thread)
and the time it has spent in `sleep::ms`. -/
structure Thread where
  gSched : Option SchedulerImpl
  slept_ms : Nat

/-- The members of `SchedulerImpl` in scheduler.h that the primitives call,
and `sleep::ms` of the time library. -/
structure SchedOps where
  yield : SchedulerImpl → SchedulerImpl
  add_timer : SchedulerImpl → Nat → SchedulerImpl
  sleep : SchedulerImpl → Nat → SchedulerImpl
  sleep_ms : Thread → Nat → Thread

/-- The function `co::add_timer(ms)`; `none` is the fatal end of the process
by `CHECK(gSched)`. -/
def add_timer (ops : SchedOps) (th : Thread) (ms : Nat) : Option Thread :=
  match th.gSched with
  | none => none
  | some s => some { th with gSched := some (ops.add_timer s ms) }

/-- The function `co::yield()`; `none` is the fatal end of the process by
`CHECK(gSched)`. -/
def yield (ops : SchedOps) (th : Thread) : Option Thread :=
  match th.gSched with
  | none => none
  | some s => some { th with gSched := some (ops.yield s) }

/-- The function `co::sleep(ms)`:
`gSched ? gSched->sleep(ms) : sleep::ms(ms)`. -/
def sleep (ops : SchedOps) (th : Thread) (ms : Nat) : Option Thread :=
  match th.gSched with
  | some s => some { th with gSched := some (ops.sleep s ms) }
  | none => some (ops.sleep_ms th ms)

/-! ## More sample data -/

/-- A sample scheduler for the stack copy: slot 1 is the buffer `[4096, 5120)`
with coroutine 9 as its incumbent; coroutine 9 has its context at 5118 and
coroutine 1 has its context at 5116 and four saved bytes; the byte at address
`a` is `a % 7`. -/
def ex_sched_stack : SchedulerImpl :=
  { ex_sched with
    _stack := fun i => if i = 1 then ⟨4096, 5120, some 9⟩ else ⟨0, 0, none⟩,
    mem := fun a => a % 7,
    heap := (ex_heap.setCo 1 { ex_heap.co 1 with ctx := 5116, stack := [7, 8, 9, 10] }).setCo 9
      { ex_heap.co 9 with ctx := 5118 } }

/-- A sample host: four processors, the sample store. -/
def ex_host : Host where
  cpunum := 4
  heap := ex_heap
  mem := fun _ => 0
  sock := fun _ => ⟨fun _ => 0, fun _ => 0⟩
  co_pool := fun i => i

/-- A sample process before `init`, asking for `f` schedulers. -/
def ex_process (f : Nat) : Process where
  FLG_co_sched_num := f
  FLG_co_stack_size := 0
  FLG_disable_co_exit := false
  kInitialized := false
  kStopped := true
  kExitLog := true
  kSchedMgr := none
  log_exit_calls := 0

/-- A sample wait for the end of the loop: the loop thread reads the wake-pipe
empty and signals `_ev`, which the waiter takes. -/
def ex_ev_wait (s : SchedulerImpl) : SchedulerImpl :=
  { s with _epoll := s._epoll.handle_ev_pipe }

/-- Sample scheduler members for the primitives; `sleep::ms` adds to the time
slept. -/
def ex_ops : SchedOps where
  yield := fun s => s
  add_timer := fun s _ => s
  sleep := fun s _ => s
  sleep_ms := fun th ms => { th with slept_ms := th.slept_ms + ms }

/-! ## Reading an event -/

/-- The test `ev.events & EPOLLIN` of `loop`. -/
def epoll_in (ev : epoll_event) : Bool := decide (ev.events &&& EPOLLIN ≠ 0)

/-- The test `ev.events & EPOLLOUT` of `loop`. -/
def epoll_out (ev : epoll_event) : Bool := decide (ev.events &&& EPOLLOUT ≠ 0)

/-- The value `ctx.get_ev_read(this->id())` for the descriptor of `ev`. -/
def read_waiter (env : Env) (s : SchedulerImpl) (ev : epoll_event) : Nat :=
  (s.sock (env.user_data ev)).get_ev_read s._id

/-- The value `ctx.get_ev_write(this->id())` for the descriptor of `ev`. -/
def write_waiter (env : Env) (s : SchedulerImpl) (ev : epoll_event) : Nat :=
  (s.sock (env.user_data ev)).get_ev_write s._id

/-- Whether the expiry policy takes the coroutine of node `n` in the store `h`:
without waitx its state is `st_init` or `st_wait`, with a waitx the state of the
waitx is `st_init`. -/
def eligible (h : Heap) (n : TimerNode) : Bool :=
  match (h.co n.second).waitx with
  | none => decide ((h.co n.second).state = st_init ∨ (h.co n.second).state = st_wait)
  | some w => decide ((h.waitx w).state = st_init)

/-- The eligible expired nodes of a timer map, in the order of the map: the
nodes up to the first unexpired one, each kept if it is eligible in the store
as the loop of `check_timeout` has left it when it reaches the node. -/
def picked_nodes (now_ms : Int) : List TimerNode → Heap → List TimerNode
  | [], _ => []
  | n :: ns, h =>
    if n.first > now_ms then []
    else (if eligible h n then [n] else []) ++ picked_nodes now_ms ns (expire_node h [] n).1

/-- Modelled from the spec: `TimerManager::add_timer`, the operation
`add(deadline, coroutine) → handle` on a map in "a stable ordering by
deadline", where "equal deadlines are serviced in insertion order": the new
node, named `nid`, stands behind the nodes whose deadline is not greater and
before the nodes whose deadline is greater.  The spec says nothing of the
insertion hint, which stays as it is. -/
def TimerManager.add_timer (tm : TimerManager) (nid : Nat) (deadline : Int) (co : Nat) :
    TimerManager × timer_id_t :=
  ({ tm with _timer :=
      tm._timer.filter (fun n => decide (n.first ≤ deadline)) ++
        ⟨nid, deadline, co⟩ :: tm._timer.filter (fun n => decide (n.first > deadline)) },
    some nid)

/-- The map after the timers `xs` (deadline and coroutine) are added to `tm` one
after the other, named `k`, `k + 1`, ... in the order of insertion. -/
def add_timers (tm : TimerManager) : List (Int × Nat) → Nat → TimerManager
  | [], _ => tm
  | x :: xs, k => add_timers (tm.add_timer k x.1 x.2).1 xs (k + 1)

/-- Nodes stand by deadline, and nodes of equal deadline by name: when names
are given in the order of insertion, equal deadlines stand in insertion
order. -/
def insertion_ordered (l : List TimerNode) : Prop :=
  l.Pairwise (fun a b => a.first < b.first ∨ (a.first = b.first ∧ a.nid < b.nid))

instance (l : List TimerNode) : Decidable (insertion_ordered l) := by
  unfold insertion_ordered; infer_instance

/-- A sample of timers to add: deadlines 20, 10, 20, 10 for the coroutines 11,
12, 13, 14. -/
def ex_adds : List (Int × Nat) := [(20, 11), (10, 12), (20, 13), (10, 14)]

/-! ## The calls of one pass, event by event and task by task -/

/-- The calls of `resume` the event `e` of index `i` makes: none for the
wake-pipe; else the reader, if `EPOLLIN` is set or `EPOLLOUT` is not and the id
of the reader is not 0, then the writer, if `EPOLLOUT` is set or `EPOLLIN` is
not and the id of the writer is not 0.  `b` is the scheduler when the event is
reached (both ids are read from it), `mid` the scheduler once the reader has
been dealt with. -/
def event_calls (env : Env) (e : epoll_event) (i : Nat) (b mid : SchedulerImpl) :
    List ResumeCall :=
  if env.is_ev_pipe e then []
  else
    (if (epoll_in e = true ∨ epoll_out e = false) ∧ read_waiter env b e ≠ 0 then
      [⟨Site.ev_read i, b._co_pool (read_waiter env b e), b._timeout⟩] else []) ++
    (if (epoll_out e = true ∨ epoll_in e = false) ∧ write_waiter env b e ≠ 0 then
      [⟨Site.ev_write i, mid._co_pool (write_waiter env b e), mid._timeout⟩] else [])

/-- The event loop over the indices `is` leads from `b` to `a` and makes the
calls `parts`, one list per event: each event is handled from the state its
predecessor left, its reader (if any) is resumed from that state, and its
calls are those of `event_calls`. -/
def events_trace (env : Env) (ev : Nat → epoll_event) :
    List Nat → SchedulerImpl × List ResumeCall → SchedulerImpl × List ResumeCall →
      List (List ResumeCall) → Prop
  | [], b, a, parts => a = b ∧ parts = []
  | i :: is, b, a, parts =>
    ∃ (mid after : SchedulerImpl × List ResumeCall) (rest : List (List ResumeCall)),
      (env.is_ev_pipe (ev i) = false →
        (if (epoll_in (ev i) = true ∨ epoll_out (ev i) = false) ∧
            read_waiter env b.1 (ev i) ≠ 0 then
          resume_at env (Site.ev_read i) b (b.1._co_pool (read_waiter env b.1 (ev i)))
        else some b) = some mid) ∧
      handle_event env (ev i) i b = some after ∧
      after.2 = b.2 ++ event_calls env (ev i) i b.1 mid.1 ∧
      parts = event_calls env (ev i) i b.1 mid.1 :: rest ∧
      events_trace env ev is after a rest

/-- The loop over the new tasks `cbs`, counted from index `i`, leads from `b`
to `a` and makes the calls `calls`: for each task in turn, the coroutine that
`new_coroutine` makes of it in the state reached is resumed. -/
def new_tasks_trace (env : Env) :
    List Nat → Nat → SchedulerImpl × List ResumeCall → SchedulerImpl × List ResumeCall →
      List ResumeCall → Prop
  | [], _, b, a, calls => a = b ∧ calls = []
  | cb :: cbs, i, b, a, calls =>
    ∃ (mid : SchedulerImpl × List ResumeCall) (rest : List ResumeCall),
      resume_at env (Site.new_task i) ((env.new_coroutine b.1 cb).2, b.2)
        (env.new_coroutine b.1 cb).1 = some mid ∧
      calls = ⟨Site.new_task i, (env.new_coroutine b.1 cb).1,
        (env.new_coroutine b.1 cb).2._timeout⟩ :: rest ∧
      new_tasks_trace env cbs (i + 1) mid a rest

/-- The multimap invariant: nodes stand in non-decreasing order of deadline. -/
def ordered (l : List TimerNode) : Prop :=
  l.Pairwise (fun a b => a.first ≤ b.first)

instance (l : List TimerNode) : Decidable (ordered l) := by
  unfold ordered; infer_instance

/-! ## Lemmas on the expiry loop -/

theorem expire_loop_rest (now_ms : Int) (l : List TimerNode) (h : Heap) (res : List Nat) :
    (expire_loop now_ms l h res).2.2 = l.dropWhile (fun n => decide (n.first ≤ now_ms)) := by
  induction l generalizing h res with
  | nil => simp [expire_loop]
  | cons n ns ih =>
    unfold expire_loop
    by_cases hn : n.first > now_ms
    · have : ¬ n.first ≤ now_ms := not_le.mpr hn
      simp [hn, List.dropWhile, this]
    · have : n.first ≤ now_ms := not_lt.mp hn
      simp [hn, List.dropWhile, this, ih]

theorem dropWhile_eq_filter_of_ordered (now_ms : Int) (l : List TimerNode) (hs : ordered l) :
    l.dropWhile (fun n => decide (n.first ≤ now_ms)) =
      l.filter (fun n => decide (n.first > now_ms)) := by
  induction l with
  | nil => simp
  | cons n ns ih =>
    have hs2 := List.pairwise_cons.mp hs
    by_cases hn : n.first ≤ now_ms
    · have : ¬ n.first > now_ms := not_lt.mpr hn
      simp [List.dropWhile, hn, List.filter, this]
      simpa using ih hs2.2
    · have hgt : n.first > now_ms := not_le.mp hn
      have hall : ∀ m ∈ ns, decide (m.first > now_ms) = true := by
        intro m hm
        have := hs2.1 m hm
        simp only [decide_eq_true_eq]
        omega
      simp [List.dropWhile, hn, List.filter, hgt, List.filter_eq_self.mpr hall]

theorem erase_expired_timer (tm : TimerManager) (now_ms : Int) (it : List TimerNode) :
    (erase_expired tm now_ms it)._timer = it := by
  unfold erase_expired
  by_cases hc : it = tm._timer
  · simp [hc]
  · simp [hc]

theorem check_timeout_timer (tm : TimerManager) (h : Heap) (now_ms : Int) (res : List Nat) :
    (check_timeout tm h now_ms res).tm._timer =
      tm._timer.dropWhile (fun n => decide (n.first ≤ now_ms)) := by
  unfold check_timeout
  by_cases he : tm._timer.isEmpty
  · have : tm._timer = [] := List.isEmpty_iff.mp he
    simp [this]
  · rw [if_neg he]
    simp only [erase_expired_timer, expire_loop_rest]

theorem expire_loop_append (now_ms : Int) (pre rest : List TimerNode) (h : Heap)
    (res : List Nat) (hpre : ∀ m ∈ pre, m.first ≤ now_ms) :
    expire_loop now_ms (pre ++ rest) h res =
      expire_loop now_ms rest (reach now_ms pre h res).1 (reach now_ms pre h res).2 := by
  induction pre generalizing h res with
  | nil => simp [expire_loop, reach]
  | cons m ms ih =>
    have hm : ¬ m.first > now_ms := not_lt.mpr (hpre m (List.mem_cons_self _ _))
    have hms : ∀ k ∈ ms, k.first ≤ now_ms := fun k hk => hpre k (List.mem_cons_of_mem _ hk)
    have e := ih (expire_node h res m).1 (expire_node h res m).2 hms
    simp only [reach] at e
    simp only [List.cons_append, expire_loop, hm, if_false, reach]
    exact e

theorem check_timeout_heap_res (tm : TimerManager) (h : Heap) (now_ms : Int) (res : List Nat) :
    (check_timeout tm h now_ms res).heap = (expire_loop now_ms tm._timer h res).1 ∧
    (check_timeout tm h now_ms res).res = (expire_loop now_ms tm._timer h res).2.1 := by
  unfold check_timeout
  by_cases he : tm._timer.isEmpty
  · have : tm._timer = [] := List.isEmpty_iff.mp he
    simp [this, expire_loop]
  · rw [if_neg he]
    exact ⟨rfl, rfl⟩

theorem check_timeout_from_node (now_ms : Int) (pre post : List TimerNode) (n : TimerNode)
    (hint : timer_id_t) (h : Heap) (res : List Nat)
    (hpre : ∀ m ∈ pre, m.first ≤ now_ms) (hn : n.first ≤ now_ms) :
    (check_timeout ⟨pre ++ n :: post, hint⟩ h now_ms res).heap =
      (expire_loop now_ms post
        (step_at now_ms pre n h res).1 (step_at now_ms pre n h res).2).1 ∧
    (check_timeout ⟨pre ++ n :: post, hint⟩ h now_ms res).res =
      (expire_loop now_ms post
        (step_at now_ms pre n h res).1 (step_at now_ms pre n h res).2).2.1 := by
  have h1 := check_timeout_heap_res ⟨pre ++ n :: post, hint⟩ h now_ms res
  have h2 := expire_loop_append now_ms pre (n :: post) h res hpre
  have hn2 : ¬ n.first > now_ms := not_lt.mpr hn
  simp only [expire_loop, hn2, if_false] at h2
  simp only [h2] at h1
  exact h1

/-- Every step of the expiry loop appends to the result vector. -/
theorem expire_node_res (h : Heap) (res : List Nat) (n : TimerNode) :
    (expire_node h res n).2 = res ∨ (expire_node h res n).2 = res ++ [n.second] := by
  unfold expire_node
  simp only []
  split <;> split_ifs <;> simp

theorem expire_loop_res_extends (now_ms : Int) (l : List TimerNode) (h : Heap) (res : List Nat) :
    res <+: (expire_loop now_ms l h res).2.1 := by
  induction l generalizing h res with
  | nil => simp [expire_loop]
  | cons n ns ih =>
    unfold expire_loop
    split_ifs with hn
    · simp
    · simp only []
      have h1 := ih (expire_node h res n).1 (expire_node h res n).2
      rcases expire_node_res h res n with e | e
      · rw [e] at h1 ⊢; exact h1
      · exact (e ▸ List.prefix_append res [n.second]).trans h1

/-! ## One step of the expiry loop -/

theorem expire_node_co_other (h : Heap) (res : List Nat) (n : TimerNode) (q : Nat)
    (hq : q ≠ n.second) : (expire_node h res n).1.co q = h.co q := by
  unfold expire_node
  simp only []
  split <;> split_ifs <;> simp [Heap.setCo, Heap.setWaitx, hq]

theorem expire_node_no_waitx (h : Heap) (res : List Nat) (n : TimerNode)
    (hw : (h.co n.second).waitx = none) :
    (expire_node h res n).2 =
      (if (h.co n.second).state = st_init ∨ (h.co n.second).state = st_wait
        then res ++ [n.second] else res) ∧
    ((expire_node h res n).1.co n.second).state = st_init ∧
    (expire_node h res n).1.waitx = h.waitx := by
  unfold expire_node
  by_cases hit : (h.co n.second).it = none <;>
  by_cases h1 : (h.co n.second).state = st_init <;>
  by_cases h2 : (h.co n.second).state = st_wait <;>
  simp_all [Heap.setCo, Heap.setWaitx, atomic_swap]

theorem expire_node_waitx (h : Heap) (res : List Nat) (n : TimerNode) (w : Nat)
    (hw : (h.co n.second).waitx = some w) :
    (expire_node h res n).2 =
      (if (h.waitx w).state = st_init then res ++ [n.second] else res) ∧
    ((expire_node h res n).1.waitx w).state =
      (if (h.waitx w).state = st_init then st_timeout else (h.waitx w).state) ∧
    (∀ v, v ≠ w → (expire_node h res n).1.waitx v = h.waitx v) ∧
    ((expire_node h res n).1.co n.second).state = (h.co n.second).state := by
  unfold expire_node
  by_cases hit : (h.co n.second).it = none <;>
  by_cases h1 : (h.waitx w).state = st_init <;>
  simp_all [Heap.setCo, Heap.setWaitx, atomic_compare_swap]

theorem expire_node_state_init (h : Heap) (res : List Nat) (n : TimerNode) (q : Nat)
    (hq : (h.co q).state = st_init) : ((expire_node h res n).1.co q).state = st_init := by
  by_cases e : q = n.second
  · subst e
    cases hw : (h.co n.second).waitx with
    | none => exact (expire_node_no_waitx h res n hw).2.1
    | some w => rw [(expire_node_waitx h res n w hw).2.2.2]; exact hq
  · rw [expire_node_co_other h res n q e]; exact hq

theorem expire_node_waitx_committed (h : Heap) (res : List Nat) (n : TimerNode) (w : Nat)
    (hx : (h.waitx w).state ≠ st_init) :
    ((expire_node h res n).1.waitx w).state = (h.waitx w).state := by
  cases hw : (h.co n.second).waitx with
  | none => rw [(expire_node_no_waitx h res n hw).2.2]
  | some v =>
    by_cases e : w = v
    · subst e
      rw [(expire_node_waitx h res n w hw).2.1, if_neg hx]
    · rw [(expire_node_waitx h res n v hw).2.2.1 w e]

theorem expire_loop_state_init (now_ms : Int) (l : List TimerNode) (h : Heap) (res : List Nat)
    (q : Nat) (hq : (h.co q).state = st_init) :
    ((expire_loop now_ms l h res).1.co q).state = st_init := by
  induction l generalizing h res with
  | nil => simpa [expire_loop] using hq
  | cons n ns ih =>
    unfold expire_loop
    split_ifs with hn
    · exact hq
    · exact ih _ _ (expire_node_state_init h res n q hq)

theorem expire_loop_waitx_committed (now_ms : Int) (l : List TimerNode) (h : Heap)
    (res : List Nat) (w : Nat) (hx : (h.waitx w).state ≠ st_init) :
    ((expire_loop now_ms l h res).1.waitx w).state = (h.waitx w).state := by
  induction l generalizing h res with
  | nil => simp [expire_loop]
  | cons n ns ih =>
    unfold expire_loop
    split_ifs with hn
    · rfl
    · have e := expire_node_waitx_committed h res n w hx
      simp only []
      rw [ih _ _ (by rw [e]; exact hx), e]

/-! ## The claims on `check_timeout` -/

/-- C1: for a timer map ordered by deadline and any current time, after
`check_timeout` the map holds exactly the nodes whose deadline is greater than
the current time, unchanged and in their previous order, and every node whose
deadline is not greater has been erased. -/
theorem check_timeout_erases_expired (tm : TimerManager) (h : Heap) (now_ms : Int)
    (res : List Nat) (hs : ordered tm._timer) :
    (check_timeout tm h now_ms res).tm._timer =
      tm._timer.filter (fun n => decide (n.first > now_ms)) ∧
    ∀ n ∈ tm._timer, n.first ≤ now_ms → n ∉ (check_timeout tm h now_ms res).tm._timer := by
  have e : (check_timeout tm h now_ms res).tm._timer =
      tm._timer.filter (fun n => decide (n.first > now_ms)) := by
    rw [check_timeout_timer, dropWhile_eq_filter_of_ordered now_ms _ hs]
  refine ⟨e, ?_⟩
  intro n _ hle hmem
  rw [e, List.mem_filter] at hmem
  have := hmem.2
  simp only [decide_eq_true_eq] at this
  omega

theorem check_timeout_erases_expired_witness :
    ordered ex_timer ∧
    ((check_timeout ⟨ex_timer, none⟩ ex_heap 20 []).tm._timer =
      ex_timer.filter (fun n => decide (n.first > 20)) ∧
    ∀ n ∈ ex_timer, n.first ≤ 20 → n ∉ (check_timeout ⟨ex_timer, none⟩ ex_heap 20 []).tm._timer) :=
  ⟨by decide, check_timeout_erases_expired ⟨ex_timer, none⟩ ex_heap 20 [] (by decide)⟩

/-- C2: when the loop of `check_timeout` reaches an expired node whose coroutine
has no waitx, the coroutine is appended to the result if and only if its state
at that moment is `st_init` or `st_wait`; in both cases its state is `st_init`
right after the step and when `check_timeout` returns.  The loop goes on from
the store and result vector the step leaves. -/
theorem check_timeout_no_waitx_appends_iff (now_ms : Int) (pre post : List TimerNode)
    (n : TimerNode) (hint : timer_id_t) (h : Heap) (res : List Nat)
    (hpre : ∀ m ∈ pre, m.first ≤ now_ms) (hn : n.first ≤ now_ms)
    (hw : ((reach now_ms pre h res).1.co n.second).waitx = none) :
    (step_at now_ms pre n h res).2 =
      (if ((reach now_ms pre h res).1.co n.second).state = st_init ∨
          ((reach now_ms pre h res).1.co n.second).state = st_wait
        then (reach now_ms pre h res).2 ++ [n.second] else (reach now_ms pre h res).2) ∧
    ((((reach now_ms pre h res).1.co n.second).state = st_init ∨
        ((reach now_ms pre h res).1.co n.second).state = st_wait) →
      ((step_at now_ms pre n h res).1.co n.second).state = st_init ∧
      ((check_timeout ⟨pre ++ n :: post, hint⟩ h now_ms res).heap.co n.second).state = st_init) ∧
    (check_timeout ⟨pre ++ n :: post, hint⟩ h now_ms res).heap =
      (expire_loop now_ms post (step_at now_ms pre n h res).1 (step_at now_ms pre n h res).2).1 ∧
    (check_timeout ⟨pre ++ n :: post, hint⟩ h now_ms res).res =
      (expire_loop now_ms post (step_at now_ms pre n h res).1 (step_at now_ms pre n h res).2).2.1 := by
  have hnode := expire_node_no_waitx (reach now_ms pre h res).1 (reach now_ms pre h res).2 n hw
  have hfrom := check_timeout_from_node now_ms pre post n hint h res hpre hn
  refine ⟨hnode.1, ?_, hfrom.1, hfrom.2⟩
  intro _
  refine ⟨hnode.2.1, ?_⟩
  rw [hfrom.1]
  exact expire_loop_state_init now_ms post _ _ _ hnode.2.1

theorem check_timeout_no_waitx_appends_iff_witness :
    (∀ m ∈ ([] : List TimerNode), m.first ≤ 20) ∧ (10 : Int) ≤ 20 ∧
    ((reach 20 [] ex_heap []).1.co 1).waitx = none ∧
    ((step_at 20 [] ⟨1, 10, 1⟩ ex_heap []).2 =
      (if ((reach 20 [] ex_heap []).1.co 1).state = st_init ∨
          ((reach 20 [] ex_heap []).1.co 1).state = st_wait
        then (reach 20 [] ex_heap []).2 ++ [1] else (reach 20 [] ex_heap []).2) ∧
    ((((reach 20 [] ex_heap []).1.co 1).state = st_init ∨
        ((reach 20 [] ex_heap []).1.co 1).state = st_wait) →
      ((step_at 20 [] ⟨1, 10, 1⟩ ex_heap []).1.co 1).state = st_init ∧
      ((check_timeout ⟨[] ++ ⟨1, 10, 1⟩ :: ex_timer.tail, none⟩ ex_heap 20 []).heap.co 1).state =
        st_init) ∧
    (check_timeout ⟨[] ++ ⟨1, 10, 1⟩ :: ex_timer.tail, none⟩ ex_heap 20 []).heap =
      (expire_loop 20 ex_timer.tail (step_at 20 [] ⟨1, 10, 1⟩ ex_heap []).1
        (step_at 20 [] ⟨1, 10, 1⟩ ex_heap []).2).1 ∧
    (check_timeout ⟨[] ++ ⟨1, 10, 1⟩ :: ex_timer.tail, none⟩ ex_heap 20 []).res =
      (expire_loop 20 ex_timer.tail (step_at 20 [] ⟨1, 10, 1⟩ ex_heap []).1
        (step_at 20 [] ⟨1, 10, 1⟩ ex_heap []).2).2.1) :=
  ⟨by decide, by decide, by decide,
    check_timeout_no_waitx_appends_iff 20 [] ex_timer.tail ⟨1, 10, 1⟩ none ex_heap []
      (by decide) (by decide) (by decide)⟩

/-- C3, as stated, fails: coroutine 2 of the sample store has no waitx and is in
`st_ready` when the loop reaches its expired node; `check_timeout` does not
append it, yet its state is `st_init` afterwards. -/
theorem check_timeout_ready_state_not_kept :
    ((reach 20 [⟨1, 10, 1⟩] ex_heap []).1.co 2).waitx = none ∧
    ((reach 20 [⟨1, 10, 1⟩] ex_heap []).1.co 2).state = st_ready ∧
    (2 : Nat) ∉ (check_timeout ⟨ex_timer, none⟩ ex_heap 20 []).res ∧
    ((step_at 20 [⟨1, 10, 1⟩] ⟨2, 10, 2⟩ ex_heap []).1.co 2).state = st_init ∧
    ((check_timeout ⟨ex_timer, none⟩ ex_heap 20 []).heap.co 2).state = st_init ∧
    ((check_timeout ⟨ex_timer, none⟩ ex_heap 20 []).heap.co 2).state ≠
      ((reach 20 [⟨1, 10, 1⟩] ex_heap []).1.co 2).state := by
  decide

/-- C3, amended: when the loop of `check_timeout` reaches an expired node whose
coroutine has no waitx and is neither in `st_init` nor in `st_wait`, the
coroutine is not appended for that node, and its state has been exchanged for
`st_init`: it is `st_init` right after the step and when `check_timeout`
returns.  The loop goes on from the store and result vector the step leaves. -/
theorem check_timeout_no_waitx_skips_and_resets (now_ms : Int) (pre post : List TimerNode)
    (n : TimerNode) (hint : timer_id_t) (h : Heap) (res : List Nat)
    (hpre : ∀ m ∈ pre, m.first ≤ now_ms) (hn : n.first ≤ now_ms)
    (hw : ((reach now_ms pre h res).1.co n.second).waitx = none)
    (hi : ((reach now_ms pre h res).1.co n.second).state ≠ st_init)
    (hwt : ((reach now_ms pre h res).1.co n.second).state ≠ st_wait) :
    (step_at now_ms pre n h res).2 = (reach now_ms pre h res).2 ∧
    ((step_at now_ms pre n h res).1.co n.second).state = st_init ∧
    ((check_timeout ⟨pre ++ n :: post, hint⟩ h now_ms res).heap.co n.second).state = st_init ∧
    (check_timeout ⟨pre ++ n :: post, hint⟩ h now_ms res).heap =
      (expire_loop now_ms post (step_at now_ms pre n h res).1 (step_at now_ms pre n h res).2).1 ∧
    (check_timeout ⟨pre ++ n :: post, hint⟩ h now_ms res).res =
      (expire_loop now_ms post (step_at now_ms pre n h res).1 (step_at now_ms pre n h res).2).2.1 := by
  have hnode := expire_node_no_waitx (reach now_ms pre h res).1 (reach now_ms pre h res).2 n hw
  have hfrom := check_timeout_from_node now_ms pre post n hint h res hpre hn
  refine ⟨?_, hnode.2.1, ?_, hfrom.1, hfrom.2⟩
  · have e := hnode.1
    rw [if_neg (by rintro (a | a); exact hi a; exact hwt a)] at e
    exact e
  · rw [hfrom.1]
    exact expire_loop_state_init now_ms post _ _ _ hnode.2.1

theorem check_timeout_no_waitx_skips_and_resets_witness :
    (∀ m ∈ [(⟨1, 10, 1⟩ : TimerNode)], m.first ≤ 20) ∧ (10 : Int) ≤ 20 ∧
    ((reach 20 [⟨1, 10, 1⟩] ex_heap []).1.co 2).waitx = none ∧
    ((reach 20 [⟨1, 10, 1⟩] ex_heap []).1.co 2).state ≠ st_init ∧
    ((reach 20 [⟨1, 10, 1⟩] ex_heap []).1.co 2).state ≠ st_wait ∧
    ((step_at 20 [⟨1, 10, 1⟩] ⟨2, 10, 2⟩ ex_heap []).2 = (reach 20 [⟨1, 10, 1⟩] ex_heap []).2 ∧
    ((step_at 20 [⟨1, 10, 1⟩] ⟨2, 10, 2⟩ ex_heap []).1.co 2).state = st_init ∧
    ((check_timeout ⟨[⟨1, 10, 1⟩] ++ ⟨2, 10, 2⟩ :: [⟨3, 20, 3⟩], none⟩ ex_heap 20 []).heap.co
      2).state = st_init ∧
    (check_timeout ⟨[⟨1, 10, 1⟩] ++ ⟨2, 10, 2⟩ :: [⟨3, 20, 3⟩], none⟩ ex_heap 20 []).heap =
      (expire_loop 20 [⟨3, 20, 3⟩] (step_at 20 [⟨1, 10, 1⟩] ⟨2, 10, 2⟩ ex_heap []).1
        (step_at 20 [⟨1, 10, 1⟩] ⟨2, 10, 2⟩ ex_heap []).2).1 ∧
    (check_timeout ⟨[⟨1, 10, 1⟩] ++ ⟨2, 10, 2⟩ :: [⟨3, 20, 3⟩], none⟩ ex_heap 20 []).res =
      (expire_loop 20 [⟨3, 20, 3⟩] (step_at 20 [⟨1, 10, 1⟩] ⟨2, 10, 2⟩ ex_heap []).1
        (step_at 20 [⟨1, 10, 1⟩] ⟨2, 10, 2⟩ ex_heap []).2).2.1) :=
  ⟨by decide, by decide, by decide, by decide, by decide,
    check_timeout_no_waitx_skips_and_resets 20 [⟨1, 10, 1⟩] [⟨3, 20, 3⟩] ⟨2, 10, 2⟩ none ex_heap []
      (by decide) (by decide) (by decide) (by decide) (by decide)⟩

/-- C4: when the loop of `check_timeout` reaches an expired node whose coroutine
has a waitx: if the state of the waitx is `st_init` at that moment, it is set to
`st_timeout` and the coroutine is appended to the result; for every other state
(`st_ready`, `st_timeout`) the state of the waitx is left as it is, also when
`check_timeout` returns, and the coroutine is not appended.  The loop goes on
from the store and result vector the step leaves. -/
theorem check_timeout_waitx_cas (now_ms : Int) (pre post : List TimerNode)
    (n : TimerNode) (hint : timer_id_t) (h : Heap) (res : List Nat) (w : Nat)
    (hpre : ∀ m ∈ pre, m.first ≤ now_ms) (hn : n.first ≤ now_ms)
    (hw : ((reach now_ms pre h res).1.co n.second).waitx = some w) :
    (((reach now_ms pre h res).1.waitx w).state = st_init →
      ((step_at now_ms pre n h res).1.waitx w).state = st_timeout ∧
      (step_at now_ms pre n h res).2 = (reach now_ms pre h res).2 ++ [n.second]) ∧
    (((reach now_ms pre h res).1.waitx w).state ≠ st_init →
      ((step_at now_ms pre n h res).1.waitx w).state =
        ((reach now_ms pre h res).1.waitx w).state ∧
      (step_at now_ms pre n h res).2 = (reach now_ms pre h res).2 ∧
      ((check_timeout ⟨pre ++ n :: post, hint⟩ h now_ms res).heap.waitx w).state =
        ((reach now_ms pre h res).1.waitx w).state) ∧
    (check_timeout ⟨pre ++ n :: post, hint⟩ h now_ms res).heap =
      (expire_loop now_ms post (step_at now_ms pre n h res).1 (step_at now_ms pre n h res).2).1 ∧
    (check_timeout ⟨pre ++ n :: post, hint⟩ h now_ms res).res =
      (expire_loop now_ms post (step_at now_ms pre n h res).1 (step_at now_ms pre n h res).2).2.1 := by
  have hnode := expire_node_waitx (reach now_ms pre h res).1 (reach now_ms pre h res).2 n w hw
  have hfrom := check_timeout_from_node now_ms pre post n hint h res hpre hn
  refine ⟨?_, ?_, hfrom.1, hfrom.2⟩
  · intro hi
    have e1 := hnode.1
    have e2 := hnode.2.1
    rw [if_pos hi] at e1 e2
    exact ⟨e2, e1⟩
  · intro hi
    have e1 := hnode.1
    have e2 := hnode.2.1
    rw [if_neg hi] at e1 e2
    refine ⟨e2, e1, ?_⟩
    have hi2 : ((step_at now_ms pre n h res).1.waitx w).state ≠ st_init := by
      unfold step_at; rw [e2]; exact hi
    rw [hfrom.1, expire_loop_waitx_committed now_ms post _ _ w hi2]
    exact e2

theorem check_timeout_waitx_cas_witness :
    (∀ m ∈ [(⟨1, 10, 1⟩ : TimerNode), ⟨2, 10, 2⟩, ⟨3, 20, 3⟩], m.first ≤ 20) ∧ (20 : Int) ≤ 20 ∧
    ((reach 20 [⟨1, 10, 1⟩, ⟨2, 10, 2⟩, ⟨3, 20, 3⟩] ex_heap []).1.co 4).waitx = some 4 ∧
    ((((reach 20 [⟨1, 10, 1⟩, ⟨2, 10, 2⟩, ⟨3, 20, 3⟩] ex_heap []).1.waitx 4).state = st_init →
      ((step_at 20 [⟨1, 10, 1⟩, ⟨2, 10, 2⟩, ⟨3, 20, 3⟩] ⟨4, 20, 4⟩ ex_heap []).1.waitx 4).state =
        st_timeout ∧
      (step_at 20 [⟨1, 10, 1⟩, ⟨2, 10, 2⟩, ⟨3, 20, 3⟩] ⟨4, 20, 4⟩ ex_heap []).2 =
        (reach 20 [⟨1, 10, 1⟩, ⟨2, 10, 2⟩, ⟨3, 20, 3⟩] ex_heap []).2 ++ [4]) ∧
    (((reach 20 [⟨1, 10, 1⟩, ⟨2, 10, 2⟩, ⟨3, 20, 3⟩] ex_heap []).1.waitx 4).state ≠ st_init →
      ((step_at 20 [⟨1, 10, 1⟩, ⟨2, 10, 2⟩, ⟨3, 20, 3⟩] ⟨4, 20, 4⟩ ex_heap []).1.waitx 4).state =
        ((reach 20 [⟨1, 10, 1⟩, ⟨2, 10, 2⟩, ⟨3, 20, 3⟩] ex_heap []).1.waitx 4).state ∧
      (step_at 20 [⟨1, 10, 1⟩, ⟨2, 10, 2⟩, ⟨3, 20, 3⟩] ⟨4, 20, 4⟩ ex_heap []).2 =
        (reach 20 [⟨1, 10, 1⟩, ⟨2, 10, 2⟩, ⟨3, 20, 3⟩] ex_heap []).2 ∧
      ((check_timeout ⟨[⟨1, 10, 1⟩, ⟨2, 10, 2⟩, ⟨3, 20, 3⟩] ++ ⟨4, 20, 4⟩ :: [⟨5, 30, 5⟩], none⟩
        ex_heap 20 []).heap.waitx 4).state =
        ((reach 20 [⟨1, 10, 1⟩, ⟨2, 10, 2⟩, ⟨3, 20, 3⟩] ex_heap []).1.waitx 4).state) ∧
    (check_timeout ⟨[⟨1, 10, 1⟩, ⟨2, 10, 2⟩, ⟨3, 20, 3⟩] ++ ⟨4, 20, 4⟩ :: [⟨5, 30, 5⟩], none⟩
        ex_heap 20 []).heap =
      (expire_loop 20 [⟨5, 30, 5⟩]
        (step_at 20 [⟨1, 10, 1⟩, ⟨2, 10, 2⟩, ⟨3, 20, 3⟩] ⟨4, 20, 4⟩ ex_heap []).1
        (step_at 20 [⟨1, 10, 1⟩, ⟨2, 10, 2⟩, ⟨3, 20, 3⟩] ⟨4, 20, 4⟩ ex_heap []).2).1 ∧
    (check_timeout ⟨[⟨1, 10, 1⟩, ⟨2, 10, 2⟩, ⟨3, 20, 3⟩] ++ ⟨4, 20, 4⟩ :: [⟨5, 30, 5⟩], none⟩
        ex_heap 20 []).res =
      (expire_loop 20 [⟨5, 30, 5⟩]
        (step_at 20 [⟨1, 10, 1⟩, ⟨2, 10, 2⟩, ⟨3, 20, 3⟩] ⟨4, 20, 4⟩ ex_heap []).1
        (step_at 20 [⟨1, 10, 1⟩, ⟨2, 10, 2⟩, ⟨3, 20, 3⟩] ⟨4, 20, 4⟩ ex_heap []).2).2.1) :=
  ⟨by decide, by decide, by decide,
    check_timeout_waitx_cas 20 [⟨1, 10, 1⟩, ⟨2, 10, 2⟩, ⟨3, 20, 3⟩] [⟨5, 30, 5⟩] ⟨4, 20, 4⟩ none
      ex_heap [] 4 (by decide) (by decide) (by decide)⟩

theorem dropWhile_head_not (now_ms : Int) (l rest : List TimerNode) (n : TimerNode)
    (e : l.dropWhile (fun n => decide (n.first ≤ now_ms)) = n :: rest) : now_ms < n.first := by
  induction l with
  | nil => simp at e
  | cons m ms ih =>
    by_cases hm : m.first ≤ now_ms
    · simp only [List.dropWhile, hm, decide_True] at e
      exact ih e
    · simp only [List.dropWhile, hm, decide_False] at e
      have : m = n := (List.cons.inj e).1
      rw [← this]; omega

theorem check_timeout_ret (tm : TimerManager) (h : Heap) (now_ms : Int) (res : List Nat) :
    (check_timeout tm h now_ms res).ret = next_wait (check_timeout tm h now_ms res).tm now_ms := by
  unfold check_timeout
  by_cases he : tm._timer.isEmpty
  · have : tm._timer = [] := List.isEmpty_iff.mp he
    simp [this, next_wait]
  · rw [if_neg he]

/-- C5, as stated, fails: with one timer whose deadline lies `2^32` ms after the
current time, nothing expires, the head deadline minus the current time is
`4294967296`, and `check_timeout` returns 0. -/
theorem check_timeout_delta_truncated :
    (check_timeout ⟨[⟨1, 4294967301, 1⟩], none⟩ ex_heap 5 []).tm._timer =
      [⟨1, 4294967301, 1⟩] ∧
    (4294967301 : Int) - 5 = 4294967296 ∧
    (check_timeout ⟨[⟨1, 4294967301, 1⟩], none⟩ ex_heap 5 []).ret = 0 := by
  decide

/-- C5, amended: `check_timeout` returns `0xFFFFFFFF` when the timer map is
empty on entry or empty after the expired nodes are erased; otherwise, with `d`
the deadline of the remaining head, `d` is greater than the current time and the
value returned is `d - now` reduced modulo `2^32`, which is exactly `d - now`,
and at least 1, whenever `d - now` is below `2^32`. -/
theorem check_timeout_next_wait (tm : TimerManager) (h : Heap) (now_ms : Int) (res : List Nat) :
    (tm._timer = [] → (check_timeout tm h now_ms res).ret = 4294967295) ∧
    ((check_timeout tm h now_ms res).tm._timer = [] →
      (check_timeout tm h now_ms res).ret = 4294967295) ∧
    ∀ n rest, (check_timeout tm h now_ms res).tm._timer = n :: rest →
      now_ms < n.first ∧
      (check_timeout tm h now_ms res).ret = ((n.first - now_ms) % 4294967296).toNat ∧
      (n.first - now_ms < 4294967296 →
        ((check_timeout tm h now_ms res).ret : Int) = n.first - now_ms ∧
        1 ≤ (check_timeout tm h now_ms res).ret) := by
  have hret := check_timeout_ret tm h now_ms res
  have hempty : (check_timeout tm h now_ms res).tm._timer = [] →
      (check_timeout tm h now_ms res).ret = 4294967295 := by
    intro e
    rw [hret, next_wait, e]
    rfl
  refine ⟨?_, hempty, ?_⟩
  · intro e
    apply hempty
    rw [check_timeout_timer, e]
    rfl
  · intro n rest e
    have hlt : now_ms < n.first := by
      rw [check_timeout_timer] at e
      exact dropWhile_head_not now_ms _ rest n e
    have hr : (check_timeout tm h now_ms res).ret = ((n.first - now_ms) % 4294967296).toNat := by
      rw [hret, next_wait, e]
    refine ⟨hlt, hr, ?_⟩
    intro hsmall
    have hmod : (n.first - now_ms) % 4294967296 = n.first - now_ms :=
      Int.emod_eq_of_lt (by omega) hsmall
    rw [hr, hmod]
    constructor
    · exact Int.toNat_of_nonneg (by omega)
    · omega

/-! ## Handles and the order of the result -/

theorem mem_of_mem_takeWhile (now_ms : Int) (l : List TimerNode) (n : TimerNode)
    (hn : n ∈ l.takeWhile (fun n => decide (n.first ≤ now_ms))) :
    n ∈ l ∧ n.first ≤ now_ms := by
  refine ⟨(List.takeWhile_sublist _).subset hn, ?_⟩
  have := List.mem_takeWhile_imp hn
  simpa using this

/-! ## Lemmas on `resume` -/

theorem save_stack_frame (s : SchedulerImpl) (o : Option Nat) :
    (save_stack s o)._timeout = s._timeout ∧ (save_stack s o)._timer_mgr = s._timer_mgr ∧
    (save_stack s o)._stack = s._stack ∧
    ∀ q, ((save_stack s o).heap.co q).it = (s.heap.co q).it ∧
      ((save_stack s o).heap.co q).ctx = (s.heap.co q).ctx := by
  cases o with
  | none => simp [save_stack]
  | some p =>
    refine ⟨rfl, rfl, rfl, ?_⟩
    intro q
    by_cases e : q = p <;> simp [save_stack, SchedulerImpl.setCo, Heap.setCo, e]

theorem resume_enter_timeout (env : Env) (s s1 : SchedulerImpl) (co : Nat)
    (hr : resume_enter env s co = some s1) : s1._timeout = s._timeout := by
  unfold resume_enter at hr
  simp only [] at hr
  split_ifs at hr <;> (try split at hr) <;>
    simp only [Option.some.injEq] at hr <;> subst hr <;>
    simp [SchedulerImpl.setStack, SchedulerImpl.setCo, (save_stack_frame _ _).1]

theorem resume_enter_it_none (env : Env) (s s1 : SchedulerImpl) (co : Nat)
    (hit : (s.heap.co co).it = none) (hr : resume_enter env s co = some s1) :
    s1._timer_mgr = s._timer_mgr ∧ (s1.heap.co co).it = none := by
  unfold resume_enter at hr
  simp only [] at hr
  split_ifs at hr <;> (try split at hr) <;>
    simp only [Option.some.injEq] at hr <;> subst hr <;>
    simp_all [SchedulerImpl.setStack, SchedulerImpl.setCo, Heap.setCo, (save_stack_frame _ _).2.1,
      (save_stack_frame _ _).2.2.2]

theorem resume_enter_it_some (env : Env) (s s1 : SchedulerImpl) (co i : Nat)
    (hctx : (s.heap.co co).ctx ≠ 0) (hit : (s.heap.co co).it = some i)
    (hr : resume_enter env s co = some s1) :
    s1._timer_mgr = s._timer_mgr.del_timer i ∧ (s1.heap.co co).it = none := by
  unfold resume_enter at hr
  simp only [] at hr
  split_ifs at hr <;> (try split at hr) <;>
    simp only [Option.some.injEq] at hr <;> subst hr <;>
    simp_all [SchedulerImpl.setStack, SchedulerImpl.setCo, Heap.setCo, (save_stack_frame _ _).2.1,
      (save_stack_frame _ _).2.2.2]

/-- C10: for a coroutine `co` that has run before (`ctx` not null), on the way
of `resume(co)` to the jump: if `co` holds a handle that points to a node of the
timer map, exactly that node is removed, every other node staying in place; if
its handle is `end()`, the timer manager is left as it is; in both cases the
handle of `co` is `end()` at the jump. -/
theorem resume_enter_cancels_timer (env : Env) (s s1 : SchedulerImpl) (co : Nat)
    (hctx : (s.heap.co co).ctx ≠ 0) (hr : resume_enter env s co = some s1) :
    (∀ i, (s.heap.co co).it = some i → (∃ n ∈ s._timer_mgr._timer, n.nid = i) →
      ∃ pre n post, s._timer_mgr._timer = pre ++ n :: post ∧ n.nid = i ∧
        (∀ m ∈ pre, m.nid ≠ i) ∧ s1._timer_mgr._timer = pre ++ post) ∧
    ((s.heap.co co).it = none → s1._timer_mgr = s._timer_mgr) ∧
    (s1.heap.co co).it = none := by
  cases hit : (s.heap.co co).it with
  | none =>
    have h1 := resume_enter_it_none env s s1 co hit hr
    exact ⟨fun i hi => by simp at hi, fun _ => h1.1, h1.2⟩
  | some j =>
    have h1 := resume_enter_it_some env s s1 co j hctx hit hr
    refine ⟨?_, fun hi => by simp at hi, h1.2⟩
    intro i hi hlive
    have hij : j = i := Option.some.inj hi
    subst hij
    obtain ⟨n, hn, hnid⟩ := hlive
    obtain ⟨a, l1, l2, hl1, ha, hl, he⟩ :=
      List.exists_of_eraseP (p := fun n : TimerNode => decide (n.nid = j)) hn (by simpa using hnid)
    refine ⟨l1, a, l2, hl, by simpa using ha, fun m hm => by simpa using hl1 m hm, ?_⟩
    rw [h1.1, TimerManager.del_timer]
    exact he

theorem resume_enter_cancels_timer_witness :
    (ex_sched.heap.co 1).ctx ≠ 0 ∧
    resume_enter ex_env ex_sched 1 = some ((resume_enter ex_env ex_sched 1).getD ex_sched) ∧
    (ex_sched.heap.co 1).it = some 1 ∧ (∃ n ∈ ex_sched._timer_mgr._timer, n.nid = 1) ∧
    ((∀ i, (ex_sched.heap.co 1).it = some i → (∃ n ∈ ex_sched._timer_mgr._timer, n.nid = i) →
      ∃ pre n post, ex_sched._timer_mgr._timer = pre ++ n :: post ∧ n.nid = i ∧
        (∀ m ∈ pre, m.nid ≠ i) ∧
        ((resume_enter ex_env ex_sched 1).getD ex_sched)._timer_mgr._timer = pre ++ post) ∧
    ((ex_sched.heap.co 1).it = none →
      ((resume_enter ex_env ex_sched 1).getD ex_sched)._timer_mgr = ex_sched._timer_mgr) ∧
    (((resume_enter ex_env ex_sched 1).getD ex_sched).heap.co 1).it = none) :=
  ⟨by decide, rfl, by decide, by decide,
    resume_enter_cancels_timer ex_env ex_sched _ 1 (by decide) rfl⟩

/-! ## Lemmas on the loop -/

theorem resume_leave_timeout (env : Env) (hk : env.keeps_timeout) (s s1 : SchedulerImpl)
    (frm : tb_context_from_t) (hr : resume_leave env s frm = some s1) :
    s1._timeout = s._timeout := by
  unfold resume_leave at hr
  split at hr
  · split_ifs at hr
    simp only [Option.some.injEq] at hr
    subst hr
    rfl
  · simp only [Option.some.injEq] at hr
    subst hr
    exact hk.2.1 s

theorem resume_at_calls (env : Env) (site : Site) (st st1 : SchedulerImpl × List ResumeCall)
    (co : Nat) (hr : resume_at env site st co = some st1) :
    st1.2 = st.2 ++ [⟨site, co, st.1._timeout⟩] ∧
    (env.keeps_timeout → st1.1._timeout = st.1._timeout) := by
  unfold resume_at at hr
  split at hr
  · simp at hr
  · rename_i s1 he
    simp only [] at hr
    split at hr
    · simp at hr
    · rename_i s3 hl
      simp only [Option.some.injEq] at hr
      subst hr
      have ht := resume_enter_timeout env st.1 s1 co he
      refine ⟨?_, ?_⟩
      · simp [timeout, SchedulerImpl.timeout, ht]
      · intro hk
        rw [resume_leave_timeout env hk _ _ _ hl, hk.1, ht]

theorem resume_tasks_calls (env : Env) (site : Nat → Site) (cs : List Nat) (i : Nat)
    (st st1 : SchedulerImpl × List ResumeCall)
    (hr : resume_tasks env site cs i st = some st1) :
    ∃ calls : List ResumeCall, st1.2 = st.2 ++ calls ∧
      calls.map ResumeCall.key = calls_from site cs i ∧
      (env.keeps_timeout → st1.1._timeout = st.1._timeout ∧
        ∀ x ∈ calls, x.timeout = st.1._timeout) := by
  induction cs generalizing i st with
  | nil =>
    simp only [resume_tasks, Option.some.injEq] at hr
    subst hr
    exact ⟨[], by simp, rfl, fun _ => ⟨rfl, by simp⟩⟩
  | cons c cs ih =>
    simp only [resume_tasks] at hr
    split at hr
    · simp at hr
    · rename_i st2 h2
      obtain ⟨calls, e1, e2, e3⟩ := ih (i + 1) st2 hr
      have ha := resume_at_calls env (site i) st st2 c h2
      refine ⟨⟨site i, c, st.1._timeout⟩ :: calls, ?_, ?_, ?_⟩
      · rw [e1, ha.1]; simp
      · simp [calls_from, ResumeCall.key, ← e2]
      · intro hk
        have hb := e3 hk
        have hc := ha.2 hk
        refine ⟨by rw [hb.1, hc], ?_⟩
        intro x hx
        rcases List.mem_cons.mp hx with e | hin
        · rw [e]
        · rw [hb.2 x hin, hc]

theorem resume_new_tasks_calls (env : Env) (cbs : List Nat) (i : Nat)
    (st st1 : SchedulerImpl × List ResumeCall)
    (hr : resume_new_tasks env cbs i st = some st1) :
    ∃ calls : List ResumeCall, st1.2 = st.2 ++ calls ∧
      calls.map ResumeCall.site = (List.range' i cbs.length).map Site.new_task ∧
      List.Forall₂ (fun cb x => ∃ s : SchedulerImpl, x.co = (env.new_coroutine s cb).1)
        cbs calls ∧
      (env.keeps_timeout → st1.1._timeout = st.1._timeout ∧
        ∀ x ∈ calls, x.timeout = st.1._timeout) := by
  induction cbs generalizing i st with
  | nil =>
    simp only [resume_new_tasks, Option.some.injEq] at hr
    subst hr
    exact ⟨[], by simp, by simp, List.Forall₂.nil, fun _ => ⟨rfl, by simp⟩⟩
  | cons cb cbs ih =>
    simp only [resume_new_tasks] at hr
    split at hr
    · simp at hr
    · rename_i st2 h2
      obtain ⟨calls, e1, e2, e3, e4⟩ := ih (i + 1) st2 hr
      have ha := resume_at_calls env (Site.new_task i) _ st2 _ h2
      simp only [] at ha
      refine ⟨⟨Site.new_task i, (env.new_coroutine st.1 cb).1,
        (env.new_coroutine st.1 cb).2._timeout⟩ :: calls, ?_, ?_, ?_, ?_⟩
      · rw [e1, ha.1]; simp
      · simp [List.range', e2]
      · exact List.Forall₂.cons ⟨st.1, rfl⟩ e3
      · intro hk
        have hb := e4 hk
        have hc := ha.2 hk
        have hd := hk.2.2 st.1 cb
        refine ⟨by rw [hb.1, hc, hd], ?_⟩
        intro x hx
        rcases List.mem_cons.mp hx with e | hin
        · rw [e]; exact hd
        · rw [hb.2 x hin, hc, hd]

theorem resume_if_calls (env : Env) (site : Site) (st st1 : SchedulerImpl × List ResumeCall)
    (co : Nat) (c : Prop) [Decidable c]
    (hr : (if c then resume_at env site st co else some st) = some st1) :
    ∃ p : List ResumeCall, st1.2 = st.2 ++ p ∧
      (p = [] ∨ ∃ x, p = [x] ∧ x.site = site) ∧
      (env.keeps_timeout → st1.1._timeout = st.1._timeout ∧
        ∀ x ∈ p, x.timeout = st.1._timeout) := by
  by_cases hc : c
  · rw [if_pos hc] at hr
    have ha := resume_at_calls env _ st st1 _ hr
    exact ⟨_, ha.1, Or.inr ⟨_, rfl, rfl⟩, fun hk => ⟨ha.2 hk, by simp⟩⟩
  · rw [if_neg hc] at hr
    simp only [Option.some.injEq] at hr
    subst hr
    exact ⟨[], by simp, Or.inl rfl, fun _ => ⟨rfl, by simp⟩⟩

theorem handle_event_calls (env : Env) (e : epoll_event) (i : Nat)
    (st st1 : SchedulerImpl × List ResumeCall) (hr : handle_event env e i st = some st1) :
    ∃ part : List ResumeCall, st1.2 = st.2 ++ part ∧
      (part.map ResumeCall.site).Sublist [Site.ev_read i, Site.ev_write i] ∧
      (env.is_ev_pipe e = true → part = []) ∧
      (env.keeps_timeout → st1.1._timeout = st.1._timeout ∧
        ∀ x ∈ part, x.timeout = st.1._timeout) := by
  unfold handle_event at hr
  by_cases hp : env.is_ev_pipe e = true
  · rw [if_pos hp] at hr
    simp only [Option.some.injEq] at hr
    subst hr
    exact ⟨[], by simp, by simp, fun _ => rfl, fun _ => ⟨rfl, by simp⟩⟩
  · rw [if_neg hp] at hr
    simp only [] at hr
    split at hr
    · simp at hr
    · rename_i st2 h2
      obtain ⟨p1, e1, hp1, k1⟩ := resume_if_calls env _ st st2 _ _ h2
      obtain ⟨p2, e2, hp2, k2⟩ := resume_if_calls env _ st2 st1 _ _ hr
      refine ⟨p1 ++ p2, by rw [e2, e1, List.append_assoc], ?_, fun h => absurd h hp, ?_⟩
      · rcases hp1 with a | ⟨x, a, hx⟩ <;> rcases hp2 with b | ⟨y, b, hy⟩ <;> subst a <;> subst b <;>
          simp [*]
      · intro hk
        have a := k1 hk
        have b := k2 hk
        refine ⟨by rw [b.1, a.1], ?_⟩
        intro x hx
        rcases List.mem_append.mp hx with h1 | h1
        · exact a.2 x h1
        · rw [b.2 x h1, a.1]

theorem handle_events_calls (env : Env) (ev : Nat → epoll_event) (is : List Nat)
    (st st1 : SchedulerImpl × List ResumeCall) (hr : handle_events env ev is st = some st1) :
    ∃ parts : List (List ResumeCall), st1.2 = st.2 ++ parts.flatten ∧
      List.Forall₂ (fun i part =>
        (part.map ResumeCall.site).Sublist [Site.ev_read i, Site.ev_write i] ∧
        (env.is_ev_pipe (ev i) = true → part = [])) is parts ∧
      (env.keeps_timeout → st1.1._timeout = st.1._timeout ∧
        ∀ x ∈ parts.flatten, x.timeout = st.1._timeout) := by
  induction is generalizing st with
  | nil =>
    simp only [handle_events, Option.some.injEq] at hr
    subst hr
    exact ⟨[], by simp, List.Forall₂.nil, fun _ => ⟨rfl, by simp⟩⟩
  | cons i is ih =>
    simp only [handle_events] at hr
    split at hr
    · simp at hr
    · rename_i st2 h2
      obtain ⟨part, e1, e2, e3, e4⟩ := handle_event_calls env (ev i) i st st2 h2
      obtain ⟨parts, f1, f2, f3⟩ := ih st2 hr
      refine ⟨part :: parts, by rw [f1, e1]; simp, List.Forall₂.cons ⟨e2, e3⟩ f2, ?_⟩
      intro hk
      have a := e4 hk
      have b := f3 hk
      refine ⟨by rw [b.1, a.1], ?_⟩
      intro x hx
      simp only [List.flatten_cons, List.mem_append] at hx
      rcases hx with h1 | h1
      · exact a.2 x h1
      · rw [b.2 x h1, a.1]

theorem run_tasks_calls (env : Env) (st st1 : SchedulerImpl × List ResumeCall)
    (hr : run_tasks env st = some st1) :
    ∃ b c : List ResumeCall, st1.2 = st.2 ++ b ++ c ∧
      b.map ResumeCall.site =
        (List.range' 0 st.1._task_mgr._new_tasks.length).map Site.new_task ∧
      List.Forall₂ (fun cb x => ∃ s : SchedulerImpl, x.co = (env.new_coroutine s cb).1)
        st.1._task_mgr._new_tasks b ∧
      c.map ResumeCall.key = calls_from Site.ready_task st.1._task_mgr._ready_tasks 0 ∧
      (env.keeps_timeout → st1.1._timeout = st.1._timeout ∧
        ∀ x ∈ b ++ c, x.timeout = st.1._timeout) := by
  unfold run_tasks at hr
  simp only [] at hr
  split at hr
  · simp at hr
  · rename_i st2 h2
    obtain ⟨b, b1, b2, b3, b4⟩ := resume_new_tasks_calls env _ 0 _ st2 h2
    obtain ⟨c, c1, c2, c3⟩ := resume_tasks_calls env _ _ 0 st2 st1 hr
    refine ⟨b, c, by rw [c1, b1], b2, b3, c2, ?_⟩
    intro hk
    have hb := b4 hk
    have hc := c3 hk
    refine ⟨by rw [hc.1, hb.1], ?_⟩
    intro x hx
    rcases List.mem_append.mp hx with h1 | h1
    · exact hb.2 x h1
    · rw [hc.2 x h1, hb.1]

theorem run_timers_calls (env : Env) (now_ms : Int) (st st1 : SchedulerImpl × List ResumeCall)
    (hr : run_timers env now_ms st = some st1) :
    ∃ d : List ResumeCall, st1.2 = st.2 ++ d ∧
      d.map ResumeCall.key =
        calls_from Site.timed_out (check_timeout st.1._timer_mgr st.1.heap now_ms []).res 0 ∧
      (env.keeps_timeout → st.1._timeout = false →
        st1.1._timeout = false ∧ ∀ x ∈ d, x.timeout = true) := by
  unfold run_timers at hr
  simp only [] at hr
  split_ifs at hr with hres
  · split at hr
    · simp at hr
    · rename_i st2 h2
      simp only [Option.some.injEq] at hr
      subst hr
      obtain ⟨d, d1, d2, d3⟩ := resume_tasks_calls env _ _ 0 _ st2 h2
      exact ⟨d, d1, d2, fun hk _ => ⟨rfl, (d3 hk).2⟩⟩
  · simp only [Option.some.injEq] at hr
    subst hr
    simp only [ne_eq, not_not] at hres
    exact ⟨[], by simp, by rw [hres]; rfl, fun _ h0 => ⟨h0, by simp⟩⟩

theorem calls_from_fst (site : Nat → Site) (cs : List Nat) (i : Nat) :
    (calls_from site cs i).map Prod.fst = (List.range' i cs.length).map site := by
  induction cs generalizing i with
  | nil => simp [calls_from]
  | cons c cs ih => simp [calls_from, List.range', ih]

theorem calls_from_snd (site : Nat → Site) (cs : List Nat) (i : Nat) :
    (calls_from site cs i).map Prod.snd = cs := by
  induction cs generalizing i with
  | nil => simp [calls_from]
  | cons c cs ih => simp [calls_from, ih]

theorem site_of_key_calls_from (site : Nat → Site) (cs : List Nat) (i : Nat)
    (d : List ResumeCall) (hd : d.map ResumeCall.key = calls_from site cs i) :
    d.map ResumeCall.site = (List.range' i cs.length).map site ∧
    d.map ResumeCall.co = cs := by
  have h1 := congrArg (List.map Prod.fst) hd
  have h2 := congrArg (List.map Prod.snd) hd
  rw [calls_from_fst, List.map_map] at h1
  rw [calls_from_snd, List.map_map] at h2
  exact ⟨h1, h2⟩

theorem expire_node_res_indep (h : Heap) (res : List Nat) (n : TimerNode) :
    (expire_node h res n).1 = (expire_node h [] n).1 ∧
    (expire_node h res n).2 = res ++ (expire_node h [] n).2 := by
  unfold expire_node
  simp only []
  split <;> split_ifs <;> simp

theorem expire_loop_res_indep (now_ms : Int) (l : List TimerNode) (h : Heap) (res : List Nat) :
    (expire_loop now_ms l h res).1 = (expire_loop now_ms l h []).1 ∧
    (expire_loop now_ms l h res).2.1 = res ++ (expire_loop now_ms l h []).2.1 := by
  induction l generalizing h res with
  | nil => simp [expire_loop]
  | cons n ns ih =>
    unfold expire_loop
    split_ifs with hn
    · simp
    · simp only []
      have e := expire_node_res_indep h res n
      have a := ih (expire_node h res n).1 (expire_node h res n).2
      have b := ih (expire_node h [] n).1 (expire_node h [] n).2
      rw [e.1] at a
      refine ⟨by rw [e.1]; exact a.1.trans b.1.symm, ?_⟩
      rw [e.1, a.2, b.2, e.2, List.append_assoc]

/-! ## The calls of the events and of the new tasks -/

theorem resume_if_ne_zero (env : Env) (site : Site) (st st1 : SchedulerImpl × List ResumeCall)
    (pool : Nat → Nat) (c : Prop) [Decidable c] (x : Nat)
    (h : (if (if c then x else 0) ≠ 0 then
        resume_at env site st (pool (if c then x else 0)) else some st) = some st1) :
    st1.2 = st.2 ++ (if c ∧ x ≠ 0 then [⟨site, pool x, st.1._timeout⟩] else []) := by
  by_cases hc : c
  · by_cases hx : x = 0
    · simp only [hc, hx, if_true, ne_eq, not_true_eq_false, if_false, Option.some.injEq] at h
      subst h
      simp [hx]
    · simp only [hc, if_true, ne_eq, hx, not_false_eq_true] at h
      rw [(resume_at_calls env site st st1 _ h).1]
      simp [hc, hx]
  · simp only [hc, if_false, ne_eq, not_true_eq_false, Option.some.injEq] at h
    subst h
    simp [hc]

theorem ite_ne_zero_merge {β : Type} (c : Prop) [Decidable c] (x : Nat) (f : Nat → β) (y : β) :
    (if (if c then x else 0) ≠ 0 then f (if c then x else 0) else y) =
      (if c ∧ x ≠ 0 then f x else y) := by
  by_cases hc : c <;> by_cases hx : x = 0 <;> simp [hc, hx]

theorem handle_event_trace (env : Env) (e : epoll_event) (i : Nat)
    (b after : SchedulerImpl × List ResumeCall) (hr : handle_event env e i b = some after) :
    ∃ mid : SchedulerImpl × List ResumeCall,
      (env.is_ev_pipe e = false →
        (if (epoll_in e = true ∨ epoll_out e = false) ∧ read_waiter env b.1 e ≠ 0 then
          resume_at env (Site.ev_read i) b (b.1._co_pool (read_waiter env b.1 e))
        else some b) = some mid) ∧
      after.2 = b.2 ++ event_calls env e i b.1 mid.1 := by
  by_cases hp : env.is_ev_pipe e = true
  · refine ⟨b, fun h => by simp [hp] at h, ?_⟩
    unfold handle_event at hr
    rw [if_pos hp] at hr
    simp only [Option.some.injEq] at hr
    subst hr
    simp [event_calls, hp]
  · have hp2 : env.is_ev_pipe e = false := by simpa using hp
    have hr0 := hr
    unfold handle_event at hr
    rw [if_neg hp] at hr
    simp only [] at hr
    split at hr
    · simp at hr
    · rename_i mid h2
      have e1 := resume_if_ne_zero env _ b mid b.1._co_pool _ _ h2
      have e2 := resume_if_ne_zero env _ mid after mid.1._co_pool _ _ hr
      have h3 : (if (e.events &&& EPOLLIN ≠ 0 ∨ ¬ e.events &&& EPOLLOUT ≠ 0) ∧
            (b.1.sock (env.user_data e)).get_ev_read b.1._id ≠ 0 then
          resume_at env (Site.ev_read i) b
            (b.1._co_pool ((b.1.sock (env.user_data e)).get_ev_read b.1._id))
          else some b) = some mid :=
        (ite_ne_zero_merge _ _
          (fun v => resume_at env (Site.ev_read i) b (b.1._co_pool v)) (some b)).symm.trans h2
      refine ⟨mid, fun _ => ?_, ?_⟩
      · simpa [epoll_in, epoll_out, read_waiter] using h3
      · rw [e2, e1, List.append_assoc]
        simp [event_calls, hp2, epoll_in, epoll_out, read_waiter, write_waiter]

theorem handle_events_trace (env : Env) (ev : Nat → epoll_event) (is : List Nat)
    (st st1 : SchedulerImpl × List ResumeCall) (hr : handle_events env ev is st = some st1) :
    ∃ parts : List (List ResumeCall), st1.2 = st.2 ++ parts.flatten ∧
      events_trace env ev is st st1 parts := by
  induction is generalizing st with
  | nil =>
    simp only [handle_events, Option.some.injEq] at hr
    subst hr
    exact ⟨[], by simp, rfl, rfl⟩
  | cons i is ih =>
    have hr0 := hr
    simp only [handle_events] at hr
    split at hr
    · simp at hr
    · rename_i st2 h2
      obtain ⟨mid, m1, m2⟩ := handle_event_trace env (ev i) i st st2 h2
      obtain ⟨parts, f1, f2⟩ := ih st2 hr
      refine ⟨event_calls env (ev i) i st.1 mid.1 :: parts, ?_, ?_⟩
      · rw [f1, m2]; simp
      · exact ⟨mid, st2, parts, m1, h2, m2, rfl, f2⟩

theorem resume_new_tasks_trace (env : Env) (cbs : List Nat) (i : Nat)
    (st st1 : SchedulerImpl × List ResumeCall)
    (hr : resume_new_tasks env cbs i st = some st1) :
    ∃ calls : List ResumeCall, st1.2 = st.2 ++ calls ∧
      new_tasks_trace env cbs i st st1 calls := by
  induction cbs generalizing i st with
  | nil =>
    simp only [resume_new_tasks, Option.some.injEq] at hr
    subst hr
    exact ⟨[], by simp, rfl, rfl⟩
  | cons cb cbs ih =>
    simp only [resume_new_tasks] at hr
    split at hr
    · simp at hr
    · rename_i st2 h2
      obtain ⟨calls, e1, e2⟩ := ih (i + 1) st2 hr
      have ha := resume_at_calls env (Site.new_task i) _ st2 _ h2
      simp only [] at ha
      refine ⟨⟨Site.new_task i, (env.new_coroutine st.1 cb).1,
        (env.new_coroutine st.1 cb).2._timeout⟩ :: calls, ?_, ?_⟩
      · rw [e1, ha.1]; simp
      · exact ⟨st2, calls, h2, rfl, e2⟩

/-! ## The claims on the loop -/

theorem event_calls_sites (env : Env) (e : epoll_event) (i : Nat) (b mid : SchedulerImpl) :
    ((event_calls env e i b mid).map ResumeCall.site).Sublist
      [Site.ev_read i, Site.ev_write i] ∧
    (env.is_ev_pipe e = true → event_calls env e i b mid = []) := by
  unfold event_calls
  constructor
  · split_ifs <;> simp
  · intro hp
    rw [if_pos hp]

theorem events_trace_sites (env : Env) (ev : Nat → epoll_event) (is : List Nat)
    (b a : SchedulerImpl × List ResumeCall) (parts : List (List ResumeCall))
    (h : events_trace env ev is b a parts) :
    List.Forall₂ (fun i part =>
      (part.map ResumeCall.site).Sublist [Site.ev_read i, Site.ev_write i] ∧
      (env.is_ev_pipe (ev i) = true → part = [])) is parts := by
  induction is generalizing b parts with
  | nil =>
    obtain ⟨_, hp⟩ := h
    rw [hp]
    exact List.Forall₂.nil
  | cons i is ih =>
    obtain ⟨mid, after, rest, _, _, _, hp, hrest⟩ := h
    rw [hp]
    exact List.Forall₂.cons (event_calls_sites env (ev i) i b.1 mid.1) (ih after rest hrest)

theorem new_tasks_trace_sites (env : Env) (cbs : List Nat) (i : Nat)
    (b a : SchedulerImpl × List ResumeCall) (calls : List ResumeCall)
    (h : new_tasks_trace env cbs i b a calls) :
    calls.map ResumeCall.site = (List.range' i cbs.length).map Site.new_task ∧
    List.Forall₂ (fun cb x => ∃ s : SchedulerImpl, x.co = (env.new_coroutine s cb).1)
      cbs calls := by
  induction cbs generalizing i b calls with
  | nil =>
    obtain ⟨_, hc⟩ := h
    rw [hc]
    exact ⟨by simp, List.Forall₂.nil⟩
  | cons cb cbs ih =>
    obtain ⟨mid, rest, _, hc, hrest⟩ := h
    have r := ih (i + 1) mid rest hrest
    rw [hc]
    refine ⟨?_, List.Forall₂.cons ⟨b.1, rfl⟩ r.2⟩
    simp [List.range', r.1]

/-- C7: in one pass of the loop in which `wait` returns `n >= 0` and `_stop` is
not set, the calls of `resume` are, in this order: for each event index
`0, ..., n-1` in turn the calls of that event, made from the state the event
before it left (none for a wake-pipe event, else the reader and then the
writer registered for the descriptor, each if it is to be resumed); then, for
each new task in inbox order, the coroutine `new_coroutine` makes of it; then
the ready tasks in inbox order; then the coroutines that `check_timeout`
returns, in the order returned. -/
theorem loop_body_resume_order (env : Env) (wr : WaitResult) (now_ms : Int)
    (s : SchedulerImpl) (r : PassResult)
    (hn : 0 ≤ wr.n) (hstop : (s._stop || wr.stop) = false)
    (hr : loop_body env wr now_ms s = some r) :
    ∃ (st1 mid st2 : SchedulerImpl × List ResumeCall) (parts : List (List ResumeCall))
      (b c d : List ResumeCall),
      handle_events env wr.ev (List.range wr.n.toNat)
        ({ s with _stop := s._stop || wr.stop }, []) = some st1 ∧
      run_tasks env st1 = some st2 ∧
      r.calls = parts.flatten ++ b ++ c ++ d ∧
      events_trace env wr.ev (List.range wr.n.toNat)
        ({ s with _stop := s._stop || wr.stop }, []) st1 parts ∧
      new_tasks_trace env st1.1._task_mgr._new_tasks 0
        ({ st1.1 with _task_mgr := ⟨[], []⟩ }, st1.2) mid b ∧
      resume_tasks env Site.ready_task st1.1._task_mgr._ready_tasks 0 mid = some st2 ∧
      List.Forall₂ (fun i part =>
        (part.map ResumeCall.site).Sublist [Site.ev_read i, Site.ev_write i] ∧
        (env.is_ev_pipe (wr.ev i) = true → part = [])) (List.range wr.n.toNat) parts ∧
      b.map ResumeCall.site =
        (List.range st1.1._task_mgr._new_tasks.length).map Site.new_task ∧
      List.Forall₂ (fun cb x => ∃ s' : SchedulerImpl, x.co = (env.new_coroutine s' cb).1)
        st1.1._task_mgr._new_tasks b ∧
      c.map ResumeCall.key = calls_from Site.ready_task st1.1._task_mgr._ready_tasks 0 ∧
      d.map ResumeCall.key =
        calls_from Site.timed_out (check_timeout st2.1._timer_mgr st2.1.heap now_ms []).res 0 := by
  unfold loop_body at hr
  simp only [hstop] at hr
  have hn1 : wr.n ≠ -1 := by omega
  simp only [hn1, if_false, Bool.false_eq_true] at hr
  split at hr
  · simp at hr
  · rename_i st1 h1
    split at hr
    · simp at hr
    · rename_i st2 h2
      split at hr
      · simp at hr
      · rename_i st3 h3
        simp only [Option.some.injEq] at hr
        subst hr
        obtain ⟨parts, p1, p2⟩ := handle_events_trace env _ _ _ st1 h1
        have h2' := h2
        unfold run_tasks at h2'
        simp only [TaskManager.get_all_tasks] at h2'
        split at h2'
        · simp at h2'
        · rename_i mid hm
          obtain ⟨b, b1, b2⟩ := resume_new_tasks_trace env _ 0 _ mid hm
          obtain ⟨c, c1, c2, _⟩ := resume_tasks_calls env _ _ 0 mid st2 h2'
          obtain ⟨d, d1, d2, _⟩ := run_timers_calls env now_ms st2 st3 h3
          have bs := new_tasks_trace_sites env _ 0 _ mid b b2
          refine ⟨st1, mid, st2, parts, b, c, d, ?_, h2, ?_, ?_, b2, h2',
            events_trace_sites env _ _ _ st1 parts p2, ?_, bs.2, c2, d2⟩
          · rw [hstop]; exact h1
          · simp only [d1, c1, b1, p1, List.nil_append]
          · rw [hstop]; exact p2
          · rw [bs.1, List.range_eq_range']

theorem loop_body_resume_order_witness :
    (0 : Int) ≤ ex_wait.n ∧ (ex_sched._stop || ex_wait.stop) = false ∧
    loop_body ex_env ex_wait 20 ex_sched = some ex_pass ∧
    ex_pass.calls.map ResumeCall.key =
      [(Site.ev_read 1, 16), (Site.ev_write 1, 23), (Site.ev_read 2, 16), (Site.new_task 0, 102),
        (Site.ready_task 0, 5), (Site.timed_out 0, 1), (Site.timed_out 1, 3)] ∧
    ∃ (st1 mid st2 : SchedulerImpl × List ResumeCall) (parts : List (List ResumeCall))
      (b c d : List ResumeCall),
      handle_events ex_env ex_wait.ev (List.range ex_wait.n.toNat)
        ({ ex_sched with _stop := ex_sched._stop || ex_wait.stop }, []) = some st1 ∧
      run_tasks ex_env st1 = some st2 ∧
      ex_pass.calls = parts.flatten ++ b ++ c ++ d ∧
      events_trace ex_env ex_wait.ev (List.range ex_wait.n.toNat)
        ({ ex_sched with _stop := ex_sched._stop || ex_wait.stop }, []) st1 parts ∧
      new_tasks_trace ex_env st1.1._task_mgr._new_tasks 0
        ({ st1.1 with _task_mgr := ⟨[], []⟩ }, st1.2) mid b ∧
      resume_tasks ex_env Site.ready_task st1.1._task_mgr._ready_tasks 0 mid = some st2 ∧
      List.Forall₂ (fun i part =>
        (part.map ResumeCall.site).Sublist [Site.ev_read i, Site.ev_write i] ∧
        (ex_env.is_ev_pipe (ex_wait.ev i) = true → part = [])) (List.range ex_wait.n.toNat)
        parts ∧
      b.map ResumeCall.site =
        (List.range st1.1._task_mgr._new_tasks.length).map Site.new_task ∧
      List.Forall₂ (fun cb x => ∃ s' : SchedulerImpl, x.co = (ex_env.new_coroutine s' cb).1)
        st1.1._task_mgr._new_tasks b ∧
      c.map ResumeCall.key = calls_from Site.ready_task st1.1._task_mgr._ready_tasks 0 ∧
      d.map ResumeCall.key =
        calls_from Site.timed_out (check_timeout st2.1._timer_mgr st2.1.heap 20 []).res 0 :=
  ⟨by decide, by decide, rfl, by decide,
    loop_body_resume_order ex_env ex_wait 20 ex_sched ex_pass (by decide) (by decide) rfl⟩

theorem parts_not_timed_out (Q : Nat → List ResumeCall → Prop) (is : List Nat)
    (parts : List (List ResumeCall))
    (h : List.Forall₂ (fun i part =>
      (part.map ResumeCall.site).Sublist [Site.ev_read i, Site.ev_write i] ∧ Q i part) is parts) :
    ∀ x ∈ parts.flatten, x.site.is_timed_out = false := by
  induction h with
  | nil => simp
  | cons hd _ ih =>
    intro x hx
    simp only [List.flatten_cons, List.mem_append] at hx
    rcases hx with h1 | h1
    · have : x.site ∈ [Site.ev_read _, Site.ev_write _] :=
        hd.1.subset (List.mem_map_of_mem _ h1)
      simp only [List.mem_cons, List.mem_singleton, List.not_mem_nil, or_false] at this
      rcases this with e | e <;> rw [e] <;> rfl
    · exact ih x h1

theorem sites_timed_out (site : Nat → Site) (v : Bool) (hv : ∀ k, (site k).is_timed_out = v)
    (l : List ResumeCall) (n i : Nat)
    (h : l.map ResumeCall.site = (List.range' i n).map site) :
    ∀ x ∈ l, x.site.is_timed_out = v := by
  intro x hx
  have : x.site ∈ l.map ResumeCall.site := List.mem_map_of_mem _ hx
  rw [h] at this
  obtain ⟨k, _, e⟩ := List.mem_map.mp this
  rw [← e]; exact hv k

/-- C8: in every pass of the loop entered with the flag `_timeout` clear (the
code outside this file not writing the flag), `co::timeout()` at the jump into a
resumed coroutine is true exactly for the coroutines resumed from the loop over
the result of `check_timeout`, and false for those resumed for an event, a new
task or a ready task; the flag is clear again when the pass ends, and
`co::timeout()` is false on a thread without a scheduler. -/
theorem loop_body_timeout_flag (env : Env) (wr : WaitResult) (now_ms : Int)
    (s : SchedulerImpl) (r : PassResult)
    (hk : env.keeps_timeout) (h0 : s._timeout = false)
    (hr : loop_body env wr now_ms s = some r) :
    (∀ x ∈ r.calls, x.timeout = x.site.is_timed_out) ∧
    r.s._timeout = false ∧
    timeout none = false := by
  refine ⟨?_, ?_, rfl⟩ <;> unfold loop_body at hr <;> simp only [] at hr <;>
    split_ifs at hr with hs hn
  · simp only [Option.some.injEq] at hr; subst hr; simp
  · simp only [Option.some.injEq] at hr; subst hr; simp
  · split at hr
    · simp at hr
    · rename_i st1 h1
      split at hr
      · simp at hr
      · rename_i st2 h2
        split at hr
        · simp at hr
        · rename_i st3 h3
          simp only [Option.some.injEq] at hr
          subst hr
          obtain ⟨parts, p1, p2, p3⟩ := handle_events_calls env _ _ _ st1 h1
          obtain ⟨b, c, q1, q2, _, q4, q5⟩ := run_tasks_calls env st1 st2 h2
          obtain ⟨d, d1, d2, d3⟩ := run_timers_calls env now_ms st2 st3 h3
          have t1 := p3 hk
          have t2 := q5 hk
          have f1 : st1.1._timeout = false := by rw [t1.1]; exact h0
          have f2 : st2.1._timeout = false := by rw [t2.1]; exact f1
          have t3 := d3 hk f2
          have sb := sites_timed_out Site.new_task false (fun _ => rfl) b _ _ q2
          have sc := sites_timed_out Site.ready_task false (fun _ => rfl) c _ _
            (site_of_key_calls_from _ _ _ c q4).1
          have sd := sites_timed_out Site.timed_out true (fun _ => rfl) d _ _
            (site_of_key_calls_from _ _ _ d d2).1
          have sp := parts_not_timed_out _ _ parts p2
          intro x hx
          simp only [d1, q1, p1, List.nil_append, List.mem_append] at hx
          rcases hx with ((hx | hx) | hx) | hx
          · rw [t1.2 x hx, sp x hx]; exact h0
          · rw [t2.2 x (List.mem_append_left _ hx), sb x hx]; exact f1
          · rw [t2.2 x (List.mem_append_right _ hx), sc x hx]; exact f1
          · rw [t3.2 x hx, sd x hx]
  · simp only [Option.some.injEq] at hr; subst hr; exact h0
  · simp only [Option.some.injEq] at hr; subst hr; exact h0
  · split at hr
    · simp at hr
    · rename_i st1 h1
      split at hr
      · simp at hr
      · rename_i st2 h2
        split at hr
        · simp at hr
        · rename_i st3 h3
          simp only [Option.some.injEq] at hr
          subst hr
          obtain ⟨parts, _, _, p3⟩ := handle_events_calls env _ _ _ st1 h1
          obtain ⟨b, c, _, _, _, _, q5⟩ := run_tasks_calls env st1 st2 h2
          obtain ⟨d, _, _, d3⟩ := run_timers_calls env now_ms st2 st3 h3
          have f1 : st1.1._timeout = false := by rw [(p3 hk).1]; exact h0
          have f2 : st2.1._timeout = false := by rw [(q5 hk).1]; exact f1
          exact (d3 hk f2).1

theorem loop_body_timeout_flag_witness :
    ex_env.keeps_timeout ∧ ex_sched._timeout = false ∧
    loop_body ex_env ex_wait 20 ex_sched = some ex_pass ∧
    ex_pass.calls.map ResumeCall.timeout = [false, false, false, false, false, true, true] ∧
    ((∀ x ∈ ex_pass.calls, x.timeout = x.site.is_timed_out) ∧
    ex_pass.s._timeout = false ∧
    timeout none = false) :=
  ⟨⟨fun _ _ _ => rfl, fun _ => rfl, fun _ _ => rfl⟩, rfl, rfl, by decide,
    loop_body_timeout_flag ex_env ex_wait 20 ex_sched ex_pass
      ⟨fun _ _ _ => rfl, fun _ => rfl, fun _ _ => rfl⟩ rfl rfl⟩

/-! ## The stack copy of `resume` -/

theorem read_bytes_memcpy (mem : Nat → Nat) (dst : Nat) (data : List Nat) :
    read_bytes (memcpy mem dst data) dst (dst + data.length) = data := by
  apply List.ext_getElem
  · simp [read_bytes]
  · intro i h1 h2
    have hi : i < data.length := h2
    simp [read_bytes, memcpy, hi, List.getD_eq_getElem?_getD, List.getElem?_eq_getElem hi]

theorem memcpy_outside (mem : Nat → Nat) (dst : Nat) (data : List Nat) (a : Nat)
    (ha : a < dst ∨ dst + data.length ≤ a) : memcpy mem dst data a = mem a := by
  unfold memcpy
  rw [if_neg]
  omega

theorem save_stack_some (s : SchedulerImpl) (q : Nat) :
    (save_stack s (some q)).mem = s.mem ∧ (save_stack s (some q))._stack = s._stack ∧
    ((save_stack s (some q)).heap.co q).stack =
      read_bytes s.mem (s.heap.co q).ctx (s._stack (s.heap.co q).sid).top ∧
    ∀ p, p ≠ q → (save_stack s (some q)).heap.co p = s.heap.co p := by
  refine ⟨rfl, rfl, ?_, ?_⟩
  · simp [save_stack, SchedulerImpl.setCo, Heap.setCo]
  · intro p hp
    simp [save_stack, SchedulerImpl.setCo, Heap.setCo, hp]

theorem resume_enter_displaced_some (env : Env) (s s1 : SchedulerImpl) (co q : Nat)
    (hctx : (s.heap.co co).ctx ≠ 0)
    (hp : (s._stack (s.heap.co co).sid).p ≠ 0)
    (hq : (s._stack (s.heap.co co).sid).co = some q) (hne : q ≠ co)
    (hr : resume_enter env s co = some s1) :
    (s._stack (s.heap.co co).sid).top = (s.heap.co co).ctx + (s.heap.co co).stack.length ∧
    s1.mem = memcpy s.mem (s.heap.co co).ctx (s.heap.co co).stack ∧
    (s1._stack (s.heap.co co).sid).co = some co ∧
    (s1.heap.co q).stack =
      read_bytes s.mem (s.heap.co q).ctx (s._stack (s.heap.co q).sid).top ∧
    (s1.heap.co co).ctx = (s.heap.co co).ctx ∧
    (s1.heap.co co).stack = (s.heap.co co).stack := by
  have hne2 : co ≠ q := fun e => hne e.symm
  have hq2 : ¬ some q = some co := by simpa using hne
  unfold resume_enter at hr
  cases hit : (s.heap.co co).it <;>
    simp only [hctx, hp, hit, hq, if_false, ne_eq, hq2, not_false_eq_true, if_true,
      SchedulerImpl.setCo, Heap.setCo] at hr <;>
    split_ifs at hr with hc <;>
    simp only [Option.some.injEq] at hr <;> subst hr <;>
    simp_all [save_stack, SchedulerImpl.setCo, SchedulerImpl.setStack, Heap.setCo]

theorem resume_enter_displaced_none (env : Env) (s : SchedulerImpl) (co q : Nat)
    (hctx : (s.heap.co co).ctx ≠ 0)
    (hp : (s._stack (s.heap.co co).sid).p ≠ 0)
    (hq : (s._stack (s.heap.co co).sid).co = some q) (hne : q ≠ co)
    (hr : resume_enter env s co = none) :
    (s._stack (s.heap.co co).sid).top ≠ (s.heap.co co).ctx + (s.heap.co co).stack.length := by
  have hne2 : co ≠ q := fun e => hne e.symm
  have hq2 : ¬ some q = some co := by simpa using hne
  unfold resume_enter at hr
  cases hit : (s.heap.co co).it <;>
    simp only [hctx, hp, hit, hq, if_false, ne_eq, hq2, not_false_eq_true, if_true,
      SchedulerImpl.setCo, Heap.setCo] at hr <;>
    split_ifs at hr with hc <;>
    simp_all [save_stack, SchedulerImpl.setCo, SchedulerImpl.setStack, Heap.setCo]

theorem resume_enter_incumbent (env : Env) (s s1 : SchedulerImpl) (co : Nat)
    (hctx : (s.heap.co co).ctx ≠ 0)
    (hq : (s._stack (s.heap.co co).sid).co = some co)
    (hr : resume_enter env s co = some s1) :
    s1.mem = s.mem ∧ ∀ p, (s1.heap.co p).stack = (s.heap.co p).stack := by
  unfold resume_enter at hr
  simp only [] at hr
  split_ifs at hr <;> (try split at hr) <;>
    simp only [Option.some.injEq] at hr <;> subst hr <;>
    simp_all [SchedulerImpl.setStack, SchedulerImpl.setCo, Heap.setCo] <;>
    (intro p; split_ifs with e <;> simp_all)

theorem resume_enter_incumbent_some (env : Env) (s : SchedulerImpl) (co : Nat)
    (hctx : (s.heap.co co).ctx ≠ 0)
    (hq : (s._stack (s.heap.co co).sid).co = some co) :
    resume_enter env s co ≠ none := by
  intro hr
  unfold resume_enter at hr
  cases hit : (s.heap.co co).it <;>
    by_cases hp : (s._stack (s.heap.co co).sid).p = 0 <;>
    simp [hctx, hp, hit, hq, SchedulerImpl.setCo, SchedulerImpl.setStack, Heap.setCo] at hr

/-- C11: for a suspended coroutine `co` (`ctx` not null).  When the slot of
`co` is allocated and its incumbent is another coroutine `q`: if the end of the
slot is not `co.ctx` plus the size of the saved stack of `co`, `resume(co)`
aborts; otherwise it reaches the jump, the saved stack of `q` is the live span
`[q.ctx, top)` as it was, the bytes of the slot in `[co.ctx, top)` are the saved
stack of `co`, no byte outside this range is written, and `co` is the incumbent.
When `co` is the incumbent already, `resume(co)` reaches the jump with the
memory and every saved stack as they were. -/
theorem resume_enter_stack_copy (env : Env) (s : SchedulerImpl) (co : Nat)
    (hctx : (s.heap.co co).ctx ≠ 0) :
    (∀ q, (s._stack (s.heap.co co).sid).p ≠ 0 → (s._stack (s.heap.co co).sid).co = some q →
      q ≠ co → (s.heap.co q).sid = (s.heap.co co).sid →
      ((s._stack (s.heap.co co).sid).top ≠ (s.heap.co co).ctx + (s.heap.co co).stack.length →
        resume_enter env s co = none) ∧
      ((s._stack (s.heap.co co).sid).top = (s.heap.co co).ctx + (s.heap.co co).stack.length →
        ∃ s1, resume_enter env s co = some s1 ∧
          (s1.heap.co q).stack =
            read_bytes s.mem (s.heap.co q).ctx (s._stack (s.heap.co co).sid).top ∧
          read_bytes s1.mem (s.heap.co co).ctx (s._stack (s.heap.co co).sid).top =
            (s.heap.co co).stack ∧
          (∀ a, a < (s.heap.co co).ctx ∨ (s._stack (s.heap.co co).sid).top ≤ a →
            s1.mem a = s.mem a) ∧
          (s1._stack (s.heap.co co).sid).co = some co ∧
          (s1.heap.co co).ctx = (s.heap.co co).ctx)) ∧
    ((s._stack (s.heap.co co).sid).co = some co →
      ∃ s1, resume_enter env s co = some s1 ∧ s1.mem = s.mem ∧
        ∀ p, (s1.heap.co p).stack = (s.heap.co p).stack) := by
  constructor
  · intro q hp hq hne hsid
    constructor
    · intro htop
      cases hr : resume_enter env s co with
      | none => rfl
      | some s1 =>
        exact absurd (resume_enter_displaced_some env s s1 co q hctx hp hq hne hr).1 htop
    · intro htop
      cases hr : resume_enter env s co with
      | none => exact absurd htop (resume_enter_displaced_none env s co q hctx hp hq hne hr)
      | some s1 =>
        obtain ⟨_, h2, h3, h4, h5, _⟩ :=
          resume_enter_displaced_some env s s1 co q hctx hp hq hne hr
        refine ⟨s1, rfl, ?_, ?_, ?_, h3, h5⟩
        · rw [h4, hsid]
        · rw [h2, htop]; exact read_bytes_memcpy _ _ _
        · intro a ha
          rw [h2]
          exact memcpy_outside _ _ _ a (by omega)
  · intro hq
    cases hr : resume_enter env s co with
    | none => exact absurd hr (resume_enter_incumbent_some env s co hctx hq)
    | some s1 => exact ⟨s1, rfl, resume_enter_incumbent env s s1 co hctx hq hr⟩

theorem resume_enter_stack_copy_witness :
    (ex_sched_stack.heap.co 1).ctx ≠ 0 ∧
    (ex_sched_stack._stack (ex_sched_stack.heap.co 1).sid) = ⟨4096, 5120, some 9⟩ ∧
    (ex_sched_stack.heap.co 9).sid = (ex_sched_stack.heap.co 1).sid ∧
    (ex_sched_stack.heap.co 1).ctx + (ex_sched_stack.heap.co 1).stack.length = 5120 ∧
    (resume_enter ex_env ex_sched_stack 1).map
        (fun s1 => (read_bytes s1.mem 5116 5120, (s1.heap.co 9).stack, (s1._stack 1).co)) =
      some ([7, 8, 9, 10], [1, 2], some 1) ∧
    (resume_enter ex_env ex_sched_stack 17).isNone = true ∧
    (resume_enter ex_env ex_sched_stack 9).map (fun s1 => read_bytes s1.mem 5116 5120) =
      some [6, 0, 1, 2] ∧
    ((∀ q, (ex_sched_stack._stack (ex_sched_stack.heap.co 1).sid).p ≠ 0 →
      (ex_sched_stack._stack (ex_sched_stack.heap.co 1).sid).co = some q →
      q ≠ 1 → (ex_sched_stack.heap.co q).sid = (ex_sched_stack.heap.co 1).sid →
      ((ex_sched_stack._stack (ex_sched_stack.heap.co 1).sid).top ≠
          (ex_sched_stack.heap.co 1).ctx + (ex_sched_stack.heap.co 1).stack.length →
        resume_enter ex_env ex_sched_stack 1 = none) ∧
      ((ex_sched_stack._stack (ex_sched_stack.heap.co 1).sid).top =
          (ex_sched_stack.heap.co 1).ctx + (ex_sched_stack.heap.co 1).stack.length →
        ∃ s1, resume_enter ex_env ex_sched_stack 1 = some s1 ∧
          (s1.heap.co q).stack =
            read_bytes ex_sched_stack.mem (ex_sched_stack.heap.co q).ctx
              (ex_sched_stack._stack (ex_sched_stack.heap.co 1).sid).top ∧
          read_bytes s1.mem (ex_sched_stack.heap.co 1).ctx
              (ex_sched_stack._stack (ex_sched_stack.heap.co 1).sid).top =
            (ex_sched_stack.heap.co 1).stack ∧
          (∀ a, a < (ex_sched_stack.heap.co 1).ctx ∨
              (ex_sched_stack._stack (ex_sched_stack.heap.co 1).sid).top ≤ a →
            s1.mem a = ex_sched_stack.mem a) ∧
          (s1._stack (ex_sched_stack.heap.co 1).sid).co = some 1 ∧
          (s1.heap.co 1).ctx = (ex_sched_stack.heap.co 1).ctx)) ∧
    ((ex_sched_stack._stack (ex_sched_stack.heap.co 1).sid).co = some 1 →
      ∃ s1, resume_enter ex_env ex_sched_stack 1 = some s1 ∧ s1.mem = ex_sched_stack.mem ∧
        ∀ p, (s1.heap.co p).stack = (ex_sched_stack.heap.co p).stack)) :=
  ⟨by decide, by decide, by decide, by decide, by decide, by decide, by decide,
    resume_enter_stack_copy ex_env ex_sched_stack 1 (by decide)⟩

/-! ## The fleet -/

theorem to_uint32_of_range (c : Int) (h1 : 0 ≤ c) (h2 : c < 4294967296) :
    to_uint32 c = c.toNat := by
  unfold to_uint32
  rw [Int.emod_eq_of_lt h1 h2]

theorem to_int_of_small (n : Nat) (h : n < 2147483648) : to_int n = n := by
  unfold to_int
  omega

theorem create_ids (host : Host) (n size : Nat) :
    ((List.range n).map (fun i => SchedulerImpl.create host i n size)).map
      (fun s => s._id) = List.range n := by
  rw [List.map_map]
  have : ((fun s : SchedulerImpl => s._id) ∘ fun i => SchedulerImpl.create host i n size) = id := by
    funext i; rfl
  rw [this, List.map_id]

/-- C12: for every configured `co_sched_num` `f` and every `cpu_count` `c >= 1`
(an `int`), `init` on a process without a manager creates exactly `N`
schedulers with the ids `0, 1, ..., N-1` in this order, where `N = f` if
`1 <= f <= c` and `N = c` if `f = 0` or `f > c`, so that `1 <= N <= c`;
afterwards `scheduler_num()` returns `N`, the size of `all_schedulers()`. -/
theorem init_creates_clamped_fleet (host : Host) (P : Process)
    (hc1 : 1 ≤ host.cpunum) (hc2 : host.cpunum < 2147483648)
    (hfresh : P.kSchedMgr = none) :
    ∃ (N : Nat) (m : SchedulerManager),
      (1 ≤ P.FLG_co_sched_num ∧ (P.FLG_co_sched_num : Int) ≤ host.cpunum →
        N = P.FLG_co_sched_num) ∧
      (P.FLG_co_sched_num = 0 ∨ (P.FLG_co_sched_num : Int) > host.cpunum →
        (N : Int) = host.cpunum) ∧
      1 ≤ N ∧ (N : Int) ≤ host.cpunum ∧
      (init host P).kSchedMgr = some m ∧
      m._scheds.map (fun s => s._id) = List.range N ∧
      m._scheds.length = N ∧
      (init host P).kInitialized = true ∧
      (scheduler_num host (init host P)).1 = N ∧
      (all_schedulers host (init host P)).1.length = N := by
  have hu : to_uint32 host.cpunum = host.cpunum.toNat :=
    to_uint32_of_range _ (by omega) (by omega)
  have hcn : (host.cpunum.toNat : Int) = host.cpunum := Int.toNat_of_nonneg (by omega)
  refine ⟨clamp_sched_num host P.FLG_co_sched_num, (SchedulerManager.create host P).1, ?_, ?_, ?_,
    ?_, ?_, ?_, ?_, ?_, ?_, ?_⟩
  · intro h
    unfold clamp_sched_num
    rw [hu, if_neg]
    omega
  · intro h
    unfold clamp_sched_num
    rw [hu, if_pos (by omega)]
    exact hcn
  · unfold clamp_sched_num
    rw [hu]
    split_ifs <;> omega
  · unfold clamp_sched_num
    rw [hu]
    split_ifs <;> omega
  · simp [init, scheduler_manager, hfresh]
  · exact create_ids host _ _
  · simp [SchedulerManager.create]
  · simp [init, scheduler_manager, hfresh, SchedulerManager.create]
  · have hlt : clamp_sched_num host P.FLG_co_sched_num < 2147483648 := by
      unfold clamp_sched_num
      rw [hu]
      split_ifs <;> omega
    simp [scheduler_num, all_schedulers, init, scheduler_manager, hfresh, SchedulerManager.create]
    exact to_int_of_small _ hlt
  · simp [all_schedulers, init, scheduler_manager, hfresh, SchedulerManager.create]

theorem init_creates_clamped_fleet_witness :
    (1 : Int) ≤ ex_host.cpunum ∧ ex_host.cpunum < 2147483648 ∧
    (ex_process 3).kSchedMgr = none ∧
    (init ex_host (ex_process 3)).kSchedMgr.map (fun m => m._scheds.map (fun s => s._id)) =
      some [0, 1, 2] ∧
    (init ex_host (ex_process 0)).kSchedMgr.map (fun m => m._scheds.map (fun s => s._id)) =
      some [0, 1, 2, 3] ∧
    (init ex_host (ex_process 9)).kSchedMgr.map (fun m => m._scheds.map (fun s => s._id)) =
      some [0, 1, 2, 3] ∧
    (scheduler_num ex_host (init ex_host (ex_process 9))).1 = 4 ∧
    ∃ (N : Nat) (m : SchedulerManager),
      (1 ≤ (ex_process 3).FLG_co_sched_num ∧
          ((ex_process 3).FLG_co_sched_num : Int) ≤ ex_host.cpunum →
        N = (ex_process 3).FLG_co_sched_num) ∧
      ((ex_process 3).FLG_co_sched_num = 0 ∨
          ((ex_process 3).FLG_co_sched_num : Int) > ex_host.cpunum →
        (N : Int) = ex_host.cpunum) ∧
      1 ≤ N ∧ (N : Int) ≤ ex_host.cpunum ∧
      (init ex_host (ex_process 3)).kSchedMgr = some m ∧
      m._scheds.map (fun s => s._id) = List.range N ∧
      m._scheds.length = N ∧
      (init ex_host (ex_process 3)).kInitialized = true ∧
      (scheduler_num ex_host (init ex_host (ex_process 3))).1 = N ∧
      (all_schedulers ex_host (init ex_host (ex_process 3))).1.length = N :=
  ⟨by decide, by decide, rfl, by decide, by decide, by decide, by decide,
    init_creates_clamped_fleet ex_host (ex_process 3) (by decide) (by decide) rfl⟩

theorem wrap_remainder_eq (N : Nat) (h1 : 1 ≤ N) (h2 : N < 4294967296) :
    wrap_remainder N = 4294967296 % N := by
  unfold wrap_remainder
  have : 4294967296 % N < N := Nat.mod_lt _ (by omega)
  exact Nat.mod_eq_of_lt (by omega)

theorem wrap_remainder_zero_iff (N : Nat) (h1 : 1 ≤ N) (h2 : N < 4294967296) :
    wrap_remainder N = 0 ↔ ∃ k, N = 2 ^ k := by
  rw [wrap_remainder_eq N h1 h2]
  constructor
  · intro h
    have hd : N ∣ 2 ^ 32 := Nat.dvd_of_mod_eq_zero (by simpa using h)
    obtain ⟨k, _, hk⟩ := (Nat.dvd_prime_pow Nat.prime_two).mp hd
    exact ⟨k, hk⟩
  · rintro ⟨k, hk⟩
    have hk32 : k < 32 := by
      by_contra hge
      have : 2 ^ 32 ≤ 2 ^ k := Nat.pow_le_pow_right (by decide) (by omega)
      omega
    have hd : N ∣ 2 ^ 32 := by
      rw [hk]
      exact Nat.pow_dvd_pow 2 (by omega)
    have := Nat.mod_eq_zero_of_dvd hd
    simpa using this

/-- C16: for every scheduler count `N` with `1 <= N < 2^32`, the constructor of
the manager sets `_r` to `2^32 mod N`, which is below `N`, and sets `_s` to
`N - 1` exactly when `_r = 0`, which is the case exactly when `N` is a power of
two, and to `0xFFFFFFFF` otherwise; when `_r = 0` the mask is not `0xFFFFFFFF`
and `n AND _s = n mod N` for every counter value `n`. -/
theorem fleet_wrap_remainder_and_mask (N : Nat) (h1 : 1 ≤ N) (h2 : N < 4294967296) :
    (∀ (host : Host) (P : Process), clamp_sched_num host P.FLG_co_sched_num = N →
      (SchedulerManager.create host P).1._r = wrap_remainder N ∧
      (SchedulerManager.create host P).1._s = index_mask N) ∧
    wrap_remainder N = 4294967296 % N ∧ wrap_remainder N < N ∧
    (index_mask N = N - 1 ↔ wrap_remainder N = 0) ∧
    (wrap_remainder N = 0 ↔ ∃ k, N = 2 ^ k) ∧
    (wrap_remainder N ≠ 0 → index_mask N = 4294967295) ∧
    (wrap_remainder N = 0 →
      index_mask N ≠ 4294967295 ∧ ∀ n, n < 4294967296 → n &&& index_mask N = n % N) := by
  have hr := wrap_remainder_eq N h1 h2
  have hlt : wrap_remainder N < N := by rw [hr]; exact Nat.mod_lt _ (by omega)
  have hmask0 : wrap_remainder N = 0 → index_mask N = N - 1 := by
    intro h0
    unfold index_mask
    rw [if_pos h0]
    omega
  have hmask1 : wrap_remainder N ≠ 0 → index_mask N = 4294967295 := by
    intro h0
    unfold index_mask
    rw [if_neg h0]
  refine ⟨?_, hr, hlt, ?_, wrap_remainder_zero_iff N h1 h2, hmask1, ?_⟩
  · intro host P hN
    simp only [SchedulerManager.create, hN]
    exact ⟨trivial, trivial⟩
  · constructor
    · intro hm
      by_contra h0
      rw [hmask1 h0] at hm
      omega
    · exact hmask0
  · intro h0
    rw [hmask0 h0]
    refine ⟨by omega, ?_⟩
    intro n _
    obtain ⟨k, hk⟩ := (wrap_remainder_zero_iff N h1 h2).mp h0
    rw [hk]
    exact Nat.and_pow_two_sub_one_eq_mod n k

theorem fleet_wrap_remainder_and_mask_witness :
    1 ≤ 4 ∧ 4 < 4294967296 ∧
    clamp_sched_num ex_host (ex_process 0).FLG_co_sched_num = 4 ∧
    (SchedulerManager.create ex_host (ex_process 0)).1._r = 0 ∧
    (SchedulerManager.create ex_host (ex_process 0)).1._s = 3 ∧
    (SchedulerManager.create ex_host (ex_process 3)).1._r = 1 ∧
    (SchedulerManager.create ex_host (ex_process 3)).1._s = 4294967295 ∧
    ((∀ (host : Host) (P : Process), clamp_sched_num host P.FLG_co_sched_num = 4 →
      (SchedulerManager.create host P).1._r = wrap_remainder 4 ∧
      (SchedulerManager.create host P).1._s = index_mask 4) ∧
    wrap_remainder 4 = 4294967296 % 4 ∧ wrap_remainder 4 < 4 ∧
    (index_mask 4 = 4 - 1 ↔ wrap_remainder 4 = 0) ∧
    (wrap_remainder 4 = 0 ↔ ∃ k, 4 = 2 ^ k) ∧
    (wrap_remainder 4 ≠ 0 → index_mask 4 = 4294967295) ∧
    (wrap_remainder 4 = 0 →
      index_mask 4 ≠ 4294967295 ∧ ∀ n, n < 4294967296 → n &&& index_mask 4 = n % 4)) :=
  ⟨by decide, by decide, by decide, by decide, by decide, by decide, by decide,
    fleet_wrap_remainder_and_mask 4 (by decide) (by decide)⟩

/-! ## Stopping -/

theorem stop_of_stopped (ev_wait : SchedulerImpl → SchedulerImpl) (s : SchedulerImpl)
    (h : s._stop = true) : s.stop ev_wait = (s, []) := by
  cases s
  simp_all [SchedulerImpl.stop, atomic_swap]

theorem stop_of_running (ev_wait : SchedulerImpl → SchedulerImpl) (s : SchedulerImpl)
    (h : s._stop = false) :
    s.stop ev_wait =
      (ev_wait { s with _stop := true, _epoll := s._epoll.signal },
        [StopAction.signal_epoll, StopAction.wait_ev]) := by
  simp [SchedulerImpl.stop, atomic_swap, h]

theorem stop_sets_stop (ev_wait : SchedulerImpl → SchedulerImpl) (hk : keeps_stop ev_wait)
    (s : SchedulerImpl) : (s.stop ev_wait).1._stop = true := by
  cases h : s._stop with
  | true => rw [stop_of_stopped ev_wait s h]; exact h
  | false => rw [stop_of_running ev_wait s h, hk]

theorem stop_all_stopped (ev_wait : SchedulerImpl → SchedulerImpl) (hk : keeps_stop ev_wait)
    (ss : List SchedulerImpl) (i : Nat) :
    ∀ s ∈ (stop_all ev_wait ss i).1, s._stop = true := by
  induction ss generalizing i with
  | nil => simp [stop_all]
  | cons a as ih =>
    intro s hs
    simp only [stop_all, List.mem_cons] at hs
    rcases hs with e | hin
    · rw [e]; exact stop_sets_stop ev_wait hk a
    · exact ih (i + 1) s hin

theorem stop_all_of_stopped (ev_wait : SchedulerImpl → SchedulerImpl)
    (ss : List SchedulerImpl) (i : Nat) (h : ∀ s ∈ ss, s._stop = true) :
    stop_all ev_wait ss i = (ss, []) := by
  induction ss generalizing i with
  | nil => simp [stop_all]
  | cons a as ih =>
    have ha := stop_of_stopped ev_wait a (h a (List.mem_cons_self _ _))
    have hrest := ih (i + 1) (fun s hs => h s (List.mem_cons_of_mem _ hs))
    simp [stop_all, ha, hrest]

theorem exit_scheds_stopped (host : Host) (ev_wait : SchedulerImpl → SchedulerImpl)
    (hk : keeps_stop ev_wait) (P : Process) (hd : P.FLG_disable_co_exit = false) :
    ∃ m, (exit host ev_wait P).1.kSchedMgr = some m ∧ (∀ s ∈ m._scheds, s._stop = true) ∧
      (exit host ev_wait P).1.kStopped = true ∧
      (exit host ev_wait P).1.FLG_disable_co_exit = false := by
  have hall := stop_all_stopped ev_wait hk (scheduler_manager host P).1._scheds 0
  have hflag : (scheduler_manager host P).2.FLG_disable_co_exit = false := by
    unfold scheduler_manager
    split
    · exact hd
    · exact hd
  refine ⟨{ (scheduler_manager host P).1 with
    _scheds := (stop_all ev_wait (scheduler_manager host P).1._scheds 0).1 }, ?_, hall, ?_, ?_⟩
  all_goals
    simp only [exit, hd, Bool.false_eq_true, not_false_eq_true, if_true]
    by_cases hl : ((scheduler_manager host P).1.stop ev_wait (scheduler_manager host P).2).1.kExitLog
      = true
    · rw [if_pos hl]; simp [SchedulerManager.stop, hflag]
    · rw [if_neg hl]; simp [SchedulerManager.stop, hflag]

theorem exit_disabled (host : Host) (ev_wait : SchedulerImpl → SchedulerImpl) (P : Process)
    (hd : P.FLG_disable_co_exit = true) : exit host ev_wait P = (P, []) := by
  simp [exit, hd]

theorem exit_of_stopped (host : Host) (ev_wait : SchedulerImpl → SchedulerImpl) (P : Process)
    (m : SchedulerManager) (hm : P.kSchedMgr = some m) (hall : ∀ s ∈ m._scheds, s._stop = true)
    (hst : P.kStopped = true) (hd : P.FLG_disable_co_exit = false) :
    (exit host ev_wait P).1.kSchedMgr = P.kSchedMgr ∧
    (exit host ev_wait P).1.kStopped = P.kStopped ∧
    (exit host ev_wait P).2 = [] := by
  have hg : scheduler_manager host P = (m, P) := by
    unfold scheduler_manager
    rw [hm]
  have hs := stop_all_of_stopped ev_wait m._scheds 0 hall
  simp only [exit, hd, Bool.false_eq_true, not_false_eq_true, if_true, hg,
    SchedulerManager.stop, hs]
  split_ifs <;> simp [hm, hst]

/-- C13: `SchedulerImpl::stop` signals the poller and waits for the end of the
loop only in the call that finds `_stop` clear, and it sets `_stop`; a call
that finds `_stop` set changes nothing and does nothing, so a second call after
a first changes nothing.  A second `co::exit()` leaves the manager with all its
schedulers and the flag `stopped()` as the first one left them and acts on no
scheduler; with `disable_co_exit` set, `exit()` changes nothing at all. -/
theorem stop_is_idempotent (host : Host) (ev_wait : SchedulerImpl → SchedulerImpl)
    (hk : keeps_stop ev_wait) (P : Process) :
    (∀ s : SchedulerImpl, s._stop = false →
      s.stop ev_wait =
        (ev_wait { s with _stop := true, _epoll := s._epoll.signal },
          [StopAction.signal_epoll, StopAction.wait_ev]) ∧
      (s.stop ev_wait).1._stop = true) ∧
    (∀ s : SchedulerImpl, s._stop = true → s.stop ev_wait = (s, [])) ∧
    (∀ s : SchedulerImpl, (s.stop ev_wait).1.stop ev_wait = ((s.stop ev_wait).1, [])) ∧
    (exit host ev_wait (exit host ev_wait P).1).1.kSchedMgr =
      (exit host ev_wait P).1.kSchedMgr ∧
    (exit host ev_wait (exit host ev_wait P).1).1.kStopped = (exit host ev_wait P).1.kStopped ∧
    (exit host ev_wait (exit host ev_wait P).1).2 = [] ∧
    (P.FLG_disable_co_exit = true → exit host ev_wait P = (P, [])) := by
  refine ⟨fun s h => ⟨stop_of_running ev_wait s h, stop_sets_stop ev_wait hk s⟩,
    fun s h => stop_of_stopped ev_wait s h,
    fun s => stop_of_stopped ev_wait _ (stop_sets_stop ev_wait hk s), ?_⟩
  have hsecond : (exit host ev_wait (exit host ev_wait P).1).1.kSchedMgr =
        (exit host ev_wait P).1.kSchedMgr ∧
      (exit host ev_wait (exit host ev_wait P).1).1.kStopped =
        (exit host ev_wait P).1.kStopped ∧
      (exit host ev_wait (exit host ev_wait P).1).2 = [] := by
    cases hd : P.FLG_disable_co_exit with
    | true =>
      rw [exit_disabled host ev_wait P hd]
      simp only []
      rw [exit_disabled host ev_wait P hd]
      exact ⟨rfl, rfl, rfl⟩
    | false =>
      obtain ⟨m, hm, hall, hst, hflag⟩ := exit_scheds_stopped host ev_wait hk P hd
      exact exit_of_stopped host ev_wait _ m hm hall hst hflag
  exact ⟨hsecond.1, hsecond.2.1, hsecond.2.2, exit_disabled host ev_wait P⟩

theorem stop_is_idempotent_witness :
    keeps_stop ex_ev_wait ∧
    (exit ex_host ex_ev_wait (ex_process 2)).2 =
      [(0, StopAction.signal_epoll), (0, StopAction.wait_ev),
        (1, StopAction.signal_epoll), (1, StopAction.wait_ev)] ∧
    (exit ex_host ex_ev_wait (exit ex_host ex_ev_wait (ex_process 2)).1).1.kSchedMgr.map
        (fun m => m._scheds.map (fun s => (s._id, s._stop))) = some [(0, true), (1, true)] ∧
    ((∀ s : SchedulerImpl, s._stop = false →
      s.stop ex_ev_wait =
        (ex_ev_wait { s with _stop := true, _epoll := s._epoll.signal },
          [StopAction.signal_epoll, StopAction.wait_ev]) ∧
      (s.stop ex_ev_wait).1._stop = true) ∧
    (∀ s : SchedulerImpl, s._stop = true → s.stop ex_ev_wait = (s, [])) ∧
    (∀ s : SchedulerImpl, (s.stop ex_ev_wait).1.stop ex_ev_wait = ((s.stop ex_ev_wait).1, [])) ∧
    (exit ex_host ex_ev_wait (exit ex_host ex_ev_wait (ex_process 2)).1).1.kSchedMgr =
      (exit ex_host ex_ev_wait (ex_process 2)).1.kSchedMgr ∧
    (exit ex_host ex_ev_wait (exit ex_host ex_ev_wait (ex_process 2)).1).1.kStopped =
      (exit ex_host ex_ev_wait (ex_process 2)).1.kStopped ∧
    (exit ex_host ex_ev_wait (exit ex_host ex_ev_wait (ex_process 2)).1).2 = [] ∧
    ((ex_process 2).FLG_disable_co_exit = true →
      exit ex_host ex_ev_wait (ex_process 2) = (ex_process 2, []))) :=
  ⟨fun _ => rfl, by decide, by decide,
    stop_is_idempotent ex_host ex_ev_wait (fun _ => rfl) (ex_process 2)⟩

/-! ## The primitives outside a coroutine -/

/-- C14, as stated, fails for `sleep`: on a thread without a scheduler
`co::sleep(100)` returns, having slept the thread for 100 ms. -/
theorem sleep_without_scheduler_returns :
    (⟨none, 0⟩ : Thread).gSched.isNone = true ∧
    (sleep ex_ops ⟨none, 0⟩ 100).isSome = true ∧
    (sleep ex_ops ⟨none, 0⟩ 100).map (fun th => (th.gSched.isNone, th.slept_ms)) =
      some (true, 100) := by
  decide

/-- C14, amended: on a thread with no current scheduler, `yield()` and
`add_timer(ms)` end the process by their `CHECK` and do nothing else, while
`sleep(ms)` calls `sleep::ms(ms)` on the thread and returns. -/
theorem primitives_without_scheduler (ops : SchedOps) (th : Thread) (ms : Nat)
    (h : th.gSched = none) :
    yield ops th = none ∧ add_timer ops th ms = none ∧
    sleep ops th ms = some (ops.sleep_ms th ms) := by
  simp [yield, add_timer, sleep, h]

theorem primitives_without_scheduler_witness :
    (⟨none, 0⟩ : Thread).gSched = none ∧
    (yield ex_ops ⟨none, 0⟩ = none ∧ add_timer ex_ops ⟨none, 0⟩ 100 = none ∧
    sleep ex_ops ⟨none, 0⟩ 100 = some (ex_ops.sleep_ms ⟨none, 0⟩ 100)) :=
  ⟨rfl, primitives_without_scheduler ex_ops ⟨none, 0⟩ 100 rfl⟩

/-! ## A failed wait, and a stop seen after the wait -/

theorem set_stop_same (s : SchedulerImpl) (b : Bool) (h : s._stop = b) :
    { s with _stop := b } = s := by
  cases s
  simp_all

/-- C15: in a pass entered with `_stop` clear.  When `wait` returns -1 and
`_stop` is still clear after it, the pass calls no `resume` and leaves the whole
state of the scheduler as it was (inbox, timer map, `_wait_ms`, `_running`
included), and the loop goes on to its next wait.  When `_stop` is found set
after `wait`, the pass calls no `resume` and changes nothing but `_stop`, and
the loop signals its end and returns. -/
theorem loop_body_error_or_stop (env : Env) (wr : WaitResult) (now_ms : Int)
    (s : SchedulerImpl) (rest : List (WaitResult × Int)) (tr : List ResumeCall)
    (hs : s._stop = false) :
    (wr.n = -1 → wr.stop = false →
      loop_body env wr now_ms s = some ⟨true, s, []⟩ ∧
      loop env ((wr, now_ms) :: rest) s tr = loop env rest s tr) ∧
    (wr.stop = true →
      loop_body env wr now_ms s = some ⟨false, { s with _stop := true }, []⟩ ∧
      loop env ((wr, now_ms) :: rest) s tr =
        some ⟨true, { s with _stop := true, _ev := true }, tr⟩) := by
  constructor
  · intro hn hw
    have hb : loop_body env wr now_ms s = some ⟨true, s, []⟩ := by
      have e : { s with _stop := false } = s := set_stop_same s _ hs
      simp only [loop_body, hs, hw, hn, Bool.or_false, Bool.false_eq_true, if_false, if_true]
      rw [e]
    refine ⟨hb, ?_⟩
    simp only [loop, hs, hb, Bool.false_eq_true, if_false, if_true, List.append_nil]
  · intro hw
    have hb : loop_body env wr now_ms s = some ⟨false, { s with _stop := true }, []⟩ := by
      simp only [loop_body, hs, hw, Bool.or_true, if_true]
    refine ⟨hb, ?_⟩
    simp only [loop, hs, hb, Bool.false_eq_true, if_false, List.append_nil]

theorem loop_body_error_or_stop_witness :
    ex_sched._stop = false ∧
    (loop_body ex_env ⟨-1, ex_wait.ev, false⟩ 20 ex_sched).map
        (fun r => (r.go_on, r.calls, r.s._wait_ms, r.s._timer_mgr, r.s._task_mgr, r.s._running.isNone)) =
      some (true, [], UINT32_MAX, ⟨ex_timer, none⟩, ⟨[6], [5]⟩, true) ∧
    (loop ex_env [(⟨3, ex_wait.ev, true⟩, 20)] ex_sched []).map
        (fun r => (r.returned, r.calls, r.s._stop, r.s._ev, r.s._task_mgr)) =
      some (true, [], true, true, ⟨[6], [5]⟩) ∧
    (((⟨-1, ex_wait.ev, false⟩ : WaitResult).n = -1 →
      (⟨-1, ex_wait.ev, false⟩ : WaitResult).stop = false →
      loop_body ex_env ⟨-1, ex_wait.ev, false⟩ 20 ex_sched = some ⟨true, ex_sched, []⟩ ∧
      loop ex_env ((⟨-1, ex_wait.ev, false⟩, 20) :: []) ex_sched [] =
        loop ex_env [] ex_sched []) ∧
    ((⟨-1, ex_wait.ev, false⟩ : WaitResult).stop = true →
      loop_body ex_env ⟨-1, ex_wait.ev, false⟩ 20 ex_sched =
        some ⟨false, { ex_sched with _stop := true }, []⟩ ∧
      loop ex_env ((⟨-1, ex_wait.ev, false⟩, 20) :: []) ex_sched [] =
        some ⟨true, { ex_sched with _stop := true, _ev := true }, []⟩)) :=
  ⟨rfl, by decide, by decide,
    loop_body_error_or_stop ex_env ⟨-1, ex_wait.ev, false⟩ 20 ex_sched [] [] rfl⟩

/-! ## The reader and the writer of an event -/

theorem expire_node_res_eligible (h : Heap) (res : List Nat) (n : TimerNode) :
    (expire_node h res n).2 = res ++ (if eligible h n then [n.second] else []) := by
  cases hw : (h.co n.second).waitx with
  | none =>
    rw [(expire_node_no_waitx h res n hw).1]
    simp only [eligible, hw]
    split_ifs <;> simp_all
  | some w =>
    rw [(expire_node_waitx h res n w hw).1]
    simp only [eligible, hw]
    split_ifs <;> simp_all

theorem expire_loop_res_picked (now_ms : Int) (l : List TimerNode) (h : Heap) (res : List Nat) :
    (expire_loop now_ms l h res).2.1 = res ++ (picked_nodes now_ms l h).map TimerNode.second := by
  induction l generalizing h res with
  | nil => simp [expire_loop, picked_nodes]
  | cons n ns ih =>
    unfold expire_loop picked_nodes
    split_ifs with hn he
    · simp
    · simp only []
      rw [ih, (expire_node_res_indep h res n).1, expire_node_res_eligible, if_pos he]
      simp
    · simp only []
      rw [ih, (expire_node_res_indep h res n).1, expire_node_res_eligible, if_neg he]
      simp

theorem picked_nodes_sublist (now_ms : Int) (l : List TimerNode) (h : Heap) :
    (picked_nodes now_ms l h).Sublist (l.takeWhile (fun n => decide (n.first ≤ now_ms))) := by
  induction l generalizing h with
  | nil => simp [picked_nodes]
  | cons n ns ih =>
    unfold picked_nodes
    by_cases hn : n.first > now_ms
    · simp [hn]
    · have hle : n.first ≤ now_ms := not_lt.mp hn
      simp only [hn, if_false, List.takeWhile, hle, decide_True]
      split_ifs
      · exact (ih _).cons₂ n
      · exact (ih _).cons n

theorem picked_nodes_append (now_ms : Int) (pre post : List TimerNode) (n : TimerNode) (h : Heap)
    (hpre : ∀ m ∈ pre, m.first ≤ now_ms) (hn : n.first ≤ now_ms) :
    picked_nodes now_ms (pre ++ n :: post) h =
      picked_nodes now_ms pre h ++ (if eligible (reach now_ms pre h []).1 n then [n] else []) ++
        picked_nodes now_ms post (step_at now_ms pre n h []).1 := by
  induction pre generalizing h with
  | nil =>
    have hn2 : ¬ n.first > now_ms := not_lt.mpr hn
    simp [picked_nodes, hn2, reach, step_at, expire_loop]
  | cons m ms ih =>
    have hm : ¬ m.first > now_ms := not_lt.mpr (hpre m (List.mem_cons_self _ _))
    have hms : ∀ k ∈ ms, k.first ≤ now_ms := fun k hk => hpre k (List.mem_cons_of_mem _ hk)
    have e := ih (expire_node h [] m).1 hms
    have r1 : (reach now_ms (m :: ms) h []).1 = (reach now_ms ms (expire_node h [] m).1 []).1 := by
      simp only [reach, expire_loop, hm, if_false]
      rw [(expire_loop_res_indep now_ms ms _ (expire_node h [] m).2).1]
    have r2 : (step_at now_ms (m :: ms) n h []).1 =
        (step_at now_ms ms n (expire_node h [] m).1 []).1 := by
      unfold step_at
      rw [(expire_node_res_indep _ (reach now_ms (m :: ms) h []).2 n).1,
        (expire_node_res_indep _ (reach now_ms ms (expire_node h [] m).1 []).2 n).1, r1]
    simp only [List.cons_append, picked_nodes, hm, if_false, r1, r2, List.append_assoc]
    have e2 : picked_nodes now_ms (ms.append (n :: post)) (expire_node h [] m).1 =
        picked_nodes now_ms (ms ++ n :: post) (expire_node h [] m).1 := rfl
    rw [e2, e, List.append_assoc]

/-! ## Insertion into the timer map -/

theorem ordered_of_insertion_ordered (l : List TimerNode) (h : insertion_ordered l) :
    ordered l := by
  unfold ordered
  unfold insertion_ordered at h
  refine List.Pairwise.imp ?_ h
  intro a b hab
  rcases hab with h1 | h1
  · omega
  · omega

theorem add_timer_insertion_ordered (tm : TimerManager) (nid : Nat) (deadline : Int) (co : Nat)
    (h : insertion_ordered tm._timer) (hnew : ∀ m ∈ tm._timer, m.nid < nid) :
    insertion_ordered (tm.add_timer nid deadline co).1._timer ∧
    ∀ m ∈ (tm.add_timer nid deadline co).1._timer, m.nid < nid + 1 := by
  constructor
  · unfold insertion_ordered at h ⊢
    simp only [TimerManager.add_timer]
    rw [List.pairwise_append]
    refine ⟨List.Pairwise.sublist (List.filter_sublist _) h, ?_, ?_⟩
    · rw [List.pairwise_cons]
      refine ⟨?_, List.Pairwise.sublist (List.filter_sublist _) h⟩
      intro b hb
      have := (List.mem_filter.mp hb).2
      simp only [decide_eq_true_eq] at this
      exact Or.inl this
    · intro a ha b hb
      have h1 := (List.mem_filter.mp ha).2
      simp only [decide_eq_true_eq] at h1
      rcases List.mem_cons.mp hb with e | hb2
      · rw [e]
        rcases lt_or_eq_of_le h1 with h2 | h2
        · exact Or.inl h2
        · exact Or.inr ⟨h2, hnew a (List.mem_filter.mp ha).1⟩
      · have h3 := (List.mem_filter.mp hb2).2
        simp only [decide_eq_true_eq] at h3
        exact Or.inl (by omega)
  · intro m hm
    simp only [TimerManager.add_timer, List.mem_append, List.mem_cons] at hm
    rcases hm with h1 | h1 | h1
    · exact Nat.lt_succ_of_lt (hnew m (List.mem_filter.mp h1).1)
    · rw [h1]; exact Nat.lt_succ_self _
    · exact Nat.lt_succ_of_lt (hnew m (List.mem_filter.mp h1).1)

theorem add_timers_insertion_ordered (xs : List (Int × Nat)) (tm : TimerManager) (k : Nat)
    (h : insertion_ordered tm._timer) (hnew : ∀ m ∈ tm._timer, m.nid < k) :
    insertion_ordered (add_timers tm xs k)._timer := by
  induction xs generalizing tm k with
  | nil => exact h
  | cons x xs ih =>
    have a := add_timer_insertion_ordered tm k x.1 x.2 h hnew
    exact ih _ (k + 1) a.1 a.2

/-- C9: the result of `check_timeout` on an ordered timer map is its argument
followed by the coroutines of the eligible expired nodes, in the order of the
map: the nodes up to the first unexpired one, each taken exactly when the
expiry policy holds in the store at the moment the loop reaches it.  These
nodes stand by non-decreasing deadline, and the loop over the result resumes
exactly their coroutines, in this order.  A timer added to the map stands behind
every node of the same deadline, so that in a map filled by `add_timer`, and so
in the result, coroutines of equal deadline stand in the order of insertion. -/
theorem check_timeout_result_in_map_order (env : Env) (now_ms : Int)
    (st : SchedulerImpl × List ResumeCall) (hs : ordered st.1._timer_mgr._timer) :
    (∀ res, (check_timeout st.1._timer_mgr st.1.heap now_ms res).res =
      res ++ (picked_nodes now_ms st.1._timer_mgr._timer st.1.heap).map TimerNode.second) ∧
    (picked_nodes now_ms st.1._timer_mgr._timer st.1.heap).Sublist st.1._timer_mgr._timer ∧
    ordered (picked_nodes now_ms st.1._timer_mgr._timer st.1.heap) ∧
    (∀ n ∈ picked_nodes now_ms st.1._timer_mgr._timer st.1.heap, n.first ≤ now_ms) ∧
    (∀ pre n post, st.1._timer_mgr._timer = pre ++ n :: post → n.first ≤ now_ms →
      picked_nodes now_ms st.1._timer_mgr._timer st.1.heap =
        picked_nodes now_ms pre st.1.heap ++
          (if eligible (reach now_ms pre st.1.heap []).1 n then [n] else []) ++
          picked_nodes now_ms post (step_at now_ms pre n st.1.heap []).1) ∧
    (∀ st1, run_timers env now_ms st = some st1 →
      ∃ d : List ResumeCall, st1.2 = st.2 ++ d ∧
        d.map ResumeCall.co =
          (picked_nodes now_ms st.1._timer_mgr._timer st.1.heap).map TimerNode.second ∧
        d.map ResumeCall.site =
          (List.range (picked_nodes now_ms st.1._timer_mgr._timer st.1.heap).length).map
            Site.timed_out) ∧
    (∀ (nid : Nat) (deadline : Int) (co : Nat),
      insertion_ordered st.1._timer_mgr._timer →
      (∀ m ∈ st.1._timer_mgr._timer, m.nid < nid) →
      insertion_ordered (st.1._timer_mgr.add_timer nid deadline co).1._timer) ∧
    (∀ xs : List (Int × Nat), insertion_ordered (add_timers ⟨[], none⟩ xs 0)._timer) ∧
    (insertion_ordered st.1._timer_mgr._timer →
      insertion_ordered (picked_nodes now_ms st.1._timer_mgr._timer st.1.heap)) := by
  have hres : ∀ res, (check_timeout st.1._timer_mgr st.1.heap now_ms res).res =
      res ++ (picked_nodes now_ms st.1._timer_mgr._timer st.1.heap).map TimerNode.second := by
    intro res
    rw [(check_timeout_heap_res _ _ _ _).2, expire_loop_res_picked]
  have hsub := (picked_nodes_sublist now_ms st.1._timer_mgr._timer st.1.heap).trans
    (List.takeWhile_sublist _)
  refine ⟨hres, hsub, List.Pairwise.sublist hsub hs, ?_, ?_, ?_, ?_, ?_, ?_⟩
  · intro n hn
    exact (mem_of_mem_takeWhile now_ms _ n
      ((picked_nodes_sublist now_ms _ _).subset hn)).2
  · intro pre n post e hn
    have hpre : ∀ m ∈ pre, m.first ≤ now_ms := by
      intro m hm
      have hs2 : ordered (pre ++ n :: post) := e ▸ hs
      unfold ordered at hs2
      have := (List.pairwise_append.mp hs2).2.2 m hm n (List.mem_cons_self _ _)
      omega
    rw [e]
    exact picked_nodes_append now_ms pre post n _ hpre hn
  · intro st1 hr
    obtain ⟨d, d1, d2, _⟩ := run_timers_calls env now_ms st st1 hr
    have e := site_of_key_calls_from _ _ _ d d2
    rw [hres [], List.nil_append] at e
    refine ⟨d, d1, e.2, ?_⟩
    rw [e.1, List.length_map, List.range_eq_range']
  · intro nid deadline co h1 h2
    exact (add_timer_insertion_ordered _ nid deadline co h1 h2).1
  · intro xs
    exact add_timers_insertion_ordered xs ⟨[], none⟩ 0 List.Pairwise.nil (by simp)
  · intro h1
    exact List.Pairwise.sublist hsub h1

theorem check_timeout_result_in_map_order_witness :
    ordered (ex_sched, ([] : List ResumeCall)).1._timer_mgr._timer ∧
    picked_nodes 20 ex_timer ex_heap = [⟨1, 10, 1⟩, ⟨3, 20, 3⟩] ∧
    (run_timers ex_env 20 (ex_sched, [])).map (fun st => st.2.map ResumeCall.key) =
      some [(Site.timed_out 0, 1), (Site.timed_out 1, 3)] ∧
    (add_timers ⟨[], none⟩ ex_adds 0)._timer =
      [⟨1, 10, 12⟩, ⟨3, 10, 14⟩, ⟨0, 20, 11⟩, ⟨2, 20, 13⟩] ∧
    (check_timeout (add_timers ⟨[], none⟩ ex_adds 0) ex_heap 20 []).res = [12, 14, 11, 13] ∧
    ((∀ res, (check_timeout (ex_sched, ([] : List ResumeCall)).1._timer_mgr
        (ex_sched, ([] : List ResumeCall)).1.heap 20 res).res =
      res ++ (picked_nodes 20 (ex_sched, ([] : List ResumeCall)).1._timer_mgr._timer
        (ex_sched, ([] : List ResumeCall)).1.heap).map TimerNode.second) ∧
    (picked_nodes 20 (ex_sched, ([] : List ResumeCall)).1._timer_mgr._timer
      (ex_sched, ([] : List ResumeCall)).1.heap).Sublist
        (ex_sched, ([] : List ResumeCall)).1._timer_mgr._timer ∧
    ordered (picked_nodes 20 (ex_sched, ([] : List ResumeCall)).1._timer_mgr._timer
      (ex_sched, ([] : List ResumeCall)).1.heap) ∧
    (∀ n ∈ picked_nodes 20 (ex_sched, ([] : List ResumeCall)).1._timer_mgr._timer
      (ex_sched, ([] : List ResumeCall)).1.heap, n.first ≤ 20) ∧
    (∀ pre n post, (ex_sched, ([] : List ResumeCall)).1._timer_mgr._timer = pre ++ n :: post →
      n.first ≤ 20 →
      picked_nodes 20 (ex_sched, ([] : List ResumeCall)).1._timer_mgr._timer
          (ex_sched, ([] : List ResumeCall)).1.heap =
        picked_nodes 20 pre (ex_sched, ([] : List ResumeCall)).1.heap ++
          (if eligible (reach 20 pre (ex_sched, ([] : List ResumeCall)).1.heap []).1 n
            then [n] else []) ++
          picked_nodes 20 post
            (step_at 20 pre n (ex_sched, ([] : List ResumeCall)).1.heap []).1) ∧
    (∀ st1, run_timers ex_env 20 (ex_sched, []) = some st1 →
      ∃ d : List ResumeCall, st1.2 = (ex_sched, ([] : List ResumeCall)).2 ++ d ∧
        d.map ResumeCall.co =
          (picked_nodes 20 (ex_sched, ([] : List ResumeCall)).1._timer_mgr._timer
            (ex_sched, ([] : List ResumeCall)).1.heap).map TimerNode.second ∧
        d.map ResumeCall.site =
          (List.range (picked_nodes 20 (ex_sched, ([] : List ResumeCall)).1._timer_mgr._timer
            (ex_sched, ([] : List ResumeCall)).1.heap).length).map Site.timed_out) ∧
    (∀ (nid : Nat) (deadline : Int) (co : Nat),
      insertion_ordered (ex_sched, ([] : List ResumeCall)).1._timer_mgr._timer →
      (∀ m ∈ (ex_sched, ([] : List ResumeCall)).1._timer_mgr._timer, m.nid < nid) →
      insertion_ordered
        ((ex_sched, ([] : List ResumeCall)).1._timer_mgr.add_timer nid deadline co).1._timer) ∧
    (∀ xs : List (Int × Nat), insertion_ordered (add_timers ⟨[], none⟩ xs 0)._timer) ∧
    (insertion_ordered (ex_sched, ([] : List ResumeCall)).1._timer_mgr._timer →
      insertion_ordered (picked_nodes 20 (ex_sched, ([] : List ResumeCall)).1._timer_mgr._timer
        (ex_sched, ([] : List ResumeCall)).1.heap))) :=
  ⟨by decide, by decide, by decide, by decide, by decide,
    check_timeout_result_in_map_order ex_env 20 (ex_sched, []) (by decide)⟩

end co
